import Mathlib

/-!
Verification development for the lunatic plugin subsystem and its
message/mailbox boundary: shallow embeddings of the plugin registry, the
module-transform pipeline host ABI, the lifecycle dispatcher, the
module-context editor with its wasm binary codec, the data message object,
and the LEB128 encoders of the plugin SDK, together with theorems settling
the specified properties.

Bytes are modelled as lists of natural numbers; machine integers are Nat or
Int with explicit wrap-around where the code can overflow. External wasm
execution (a compiled plugin running inside the engine) is abstracted by
behaviour records; the wasm binary format primitives used by the module
editor (mirroring the wasmparser and wasm-encoder crates) are embedded
directly, following the WebAssembly core binary format.
-/

set_option autoImplicit false
set_option maxRecDepth 2000

namespace Lunatic

/-- Byte strings (each entry is one byte value). -/
abbrev Bytes := List Nat

/-! ### Association-list model of HashMap

The registry name map, the host-function namespace map and the module
context export-name map are HashMaps in the source; they are modelled as
association lists with insert-or-replace semantics, which is observationally
faithful for lookup, length and iteration of values. -/

/-- Insert-or-replace for an association list (models HashMap::insert). -/
def mapInsert {κ α : Type} [DecidableEq κ] (k : κ) (v : α) :
    List (κ × α) → List (κ × α)
  | [] => [(k, v)]
  | (k1, v1) :: rest =>
    if k1 = k then (k, v) :: rest else (k1, v1) :: mapInsert k v rest

/-- Lookup for an association list (models HashMap::get). -/
def mapLookup {κ α : Type} [DecidableEq κ] (k : κ) :
    List (κ × α) → Option α
  | [] => none
  | (k1, v1) :: rest => if k1 = k then some v1 else mapLookup k rest

/-- Append a value to the list stored under a key, creating the entry when
absent (models HashMap::entry + or_default + Vec::push). -/
def mapEntryPush {κ α : Type} [DecidableEq κ] (k : κ) (v : α) :
    List (κ × List α) → List (κ × List α)
  | [] => [(k, [v])]
  | (k1, vs) :: rest =>
    if k1 = k then (k1, vs ++ [v]) :: rest else (k1, vs) :: mapEntryPush k v rest

/-! ### Plugin SDK value encoding (lunatic-plugin-sdk/src/lib.rs)

`encode_leb128_u32` loops emitting 7 payload bits per byte with the
continuation bit 0x80 on every non-final byte; the u32 input is modelled as
a Nat (the loop uses only logical shifts and masks, so no wrap occurs). -/

/-- Unsigned LEB128 encoder, translated from encode_leb128_u32. -/
def encode_leb128_u32 (value : Nat) : List Nat :=
  if value < 128 then [value]
  else (value % 128 + 128) :: encode_leb128_u32 (value / 128)
termination_by value
decreasing_by exact Nat.div_lt_self (by omega) (by omega)

/-- Signed LEB128 encoder, translated from encode_leb128_i32. The i32 input
is modelled as an Int; the arithmetic right shift by 7 is Int.ediv by 128
and the low-bits mask is Int.emod by 128 (both agree with two-complement
semantics). -/
def encode_leb128_i32 (value : Int) : List Nat :=
  if (value / 128 = 0 ∧ (value % 128).toNat &&& 64 = 0) ∨
     (value / 128 = -1 ∧ (value % 128).toNat &&& 64 ≠ 0) then
    [(value % 128).toNat]
  else
    ((value % 128).toNat ||| 128) :: encode_leb128_i32 (value / 128)
termination_by value.natAbs
decreasing_by
  rename_i hcond
  simp only [not_or, not_and, ne_eq, not_not] at hcond
  have hv0 : value ≠ 0 := by
    intro h
    subst h
    exact hcond.1 (by decide) (by decide)
  have hv1 : value ≠ -1 := by
    intro h
    subst h
    exact absurd (hcond.2 (by decide)) (by decide)
  omega

/-! ### DataMessage (lunatic-process/src/message.rs)

Resources are `Arc<dyn Any>` values in the source; an erased resource is
modelled as a pair of a type tag and a payload, and downcasting to a type
checks the tag. -/

/-- An erased resource: type tag plus payload (models Arc of dyn Any). -/
structure Res where
  ty : Nat
  val : Nat
deriving DecidableEq

/-- The data message: optional tag, read pointer, byte buffer and
positional resource slots. -/
structure DataMessage where
  tag : Option Int
  read_ptr : Nat
  buffer : Bytes
  resources : List (Option Res)
deriving DecidableEq

/-- Append a resource; the returned index is the slot position
(translated from DataMessage::add_resource). -/
def DataMessage.add_resource (m : DataMessage) (r : Res) : DataMessage × Nat :=
  ({ m with resources := m.resources ++ [some r] }, m.resources.length)

/-- Typed take-out of a resource slot (translated from
DataMessage::take_downcast): out-of-bounds gives none; mem::take leaves
none in the slot; a failed downcast restores the original value. -/
def DataMessage.take_downcast (m : DataMessage) (ty : Nat) (index : Nat) :
    Option Res × DataMessage :=
  match m.resources[index]? with
  | none => (none, m)
  | some slot =>
    match slot with
    | none => (none, { m with resources := m.resources.set index none })
    | some r =>
      if r.ty = ty then
        (some r, { m with resources := m.resources.set index none })
      else
        (none, { m with resources := m.resources.set index (some r) })

/-- Stream read (translated from the Read impl for DataMessage):
buffer.get(read_ptr..) is some slice iff read_ptr is at most the buffer
length, the caller slice receives min(its length, slice length) bytes, and
read_ptr advances by the transferred count.  Returns the copied bytes and
the count, threading the message state; on error the state is unchanged. -/
def DataMessage.read (m : DataMessage) (bufLen : Nat) :
    Except Unit (Bytes × Nat) × DataMessage :=
  if m.read_ptr ≤ m.buffer.length then
    let slice := m.buffer.drop m.read_ptr
    let bytes := min bufLen slice.length
    (.ok (slice.take bytes, bytes), { m with read_ptr := m.read_ptr + bytes })
  else
    (.error (), m)

/-! ### Plugin registry (lunatic-plugin/src/lib.rs)

Compiled wasm modules are opaque engine handles; a handle is modelled as a
Nat identifier.  Semver versions and dependency requirement strings are
carried as plain data so that PluginInfo round-trips. -/

/-- Capability that a plugin may request. -/
inductive Capability
  | moduleTransform
  | hostFunctions (namespc : String)
  | lifecycleHooks
  | networking
  | filesystem (paths : List String)
  | processSpawn
deriving DecidableEq

/-- Plugin dependency specification (version requirement kept opaque). -/
structure PluginDependency where
  name : String
  version_req : String
deriving DecidableEq

/-- Plugin metadata. -/
structure PluginInfo where
  name : String
  version : Nat × Nat × Nat
  capabilities : List Capability
  dependencies : List PluginDependency
deriving DecidableEq

/-- A loaded plugin: metadata plus the compiled module handle. -/
structure Plugin where
  info : PluginInfo
  module : Nat
deriving DecidableEq

/-- Registry state: name map, capability indexes and the lifecycle
dispatcher plugin list (the engine handle itself carries no state that the
claims touch). -/
structure PluginRegistry where
  plugins : List (String × Plugin)
  module_transform_plugins : List Plugin
  host_function_plugins : List (String × List Plugin)
  lifecycle_plugins : List Plugin
  lifecycle_dispatcher : List Plugin
deriving DecidableEq

/-- The freshly constructed registry. -/
def PluginRegistry.new : PluginRegistry :=
  { plugins := []
    module_transform_plugins := []
    host_function_plugins := []
    lifecycle_plugins := []
    lifecycle_dispatcher := [] }

/-- The capability loop of PluginRegistry::register: for each declared
capability update the corresponding index. -/
def registerCaps (p : Plugin) (reg : PluginRegistry) (caps : List Capability) :
    PluginRegistry :=
  caps.foldl
    (fun r cap =>
      match cap with
      | .moduleTransform =>
          { r with module_transform_plugins := r.module_transform_plugins ++ [p] }
      | .hostFunctions ns =>
          { r with host_function_plugins := mapEntryPush ns p r.host_function_plugins }
      | .lifecycleHooks =>
          { r with
              lifecycle_plugins := r.lifecycle_plugins ++ [p]
              lifecycle_dispatcher := r.lifecycle_dispatcher ++ [p] }
      | _ => r)
    reg

/-- Register a plugin (translated from PluginRegistry::register): run the
capability loop, then insert into the name map. -/
def PluginRegistry.register (reg : PluginRegistry) (p : Plugin) : PluginRegistry :=
  let reg2 := registerCaps p reg p.info.capabilities
  { reg2 with plugins := mapInsert p.info.name p reg2.plugins }

/-- Get a plugin by name (translated from PluginRegistry::get). -/
def PluginRegistry.get (reg : PluginRegistry) (name : String) : Option Plugin :=
  mapLookup name reg.plugins

/-- Register a plugin from raw wasm bytes (translated from
PluginRegistry::register_wasm).  Module compilation by the external engine
is abstracted as the `compile` parameter; the question-mark early return on
a compile error happens before any registry field is touched, so the state
is returned unchanged with a false success flag. -/
def PluginRegistry.register_wasm (compile : Bytes → Option Nat)
    (reg : PluginRegistry) (info : PluginInfo) (wasm : Bytes) :
    PluginRegistry × Bool :=
  match compile wasm with
  | none => (reg, false)
  | some m => (reg.register { info := info, module := m }, true)

/-- A plugin is reachable through a capability index when it occurs in the
transform list, in some host-function namespace list, or in the lifecycle
dispatcher. -/
def PluginRegistry.reachableByCapability (reg : PluginRegistry) (p : Plugin) : Prop :=
  p ∈ reg.module_transform_plugins ∨
  (∃ ns vs, mapLookup ns reg.host_function_plugins = some vs ∧ p ∈ vs) ∨
  p ∈ reg.lifecycle_dispatcher

/-- The registry invariant of the specification: every plugin reachable
through a capability index is also reachable through get by its name. -/
def RegInv (reg : PluginRegistry) : Prop :=
  ∀ q, reg.reachableByCapability q → reg.get q.info.name = some q

/-- Fold a sequence of register calls over the fresh registry. -/
def buildRegistry (ps : List Plugin) : PluginRegistry :=
  ps.foldl PluginRegistry.register PluginRegistry.new

/-- Reachability through the host-function namespace map alone. -/
def hostReach (m : List (String × List Plugin)) (q : Plugin) : Prop :=
  ∃ ns vs, mapLookup ns m = some vs ∧ q ∈ vs

/-! ### Module-transform pipeline (PluginRegistry::transform_module)

Per-pass host state and the two host functions whose behaviour the claims
pin down.  The i32 values crossing the ABI are modelled with explicit
two-complement wrap. -/

/-- Interpret a Nat as an i32 via two-complement truncation
(the semantics of `as i32` on usize in the source). -/
def toI32 (n : Nat) : Int :=
  if n % 2 ^ 32 < 2 ^ 31 then (n % 2 ^ 32 : Nat) else (n % 2 ^ 32 : Nat) - 2 ^ 32

/-- Interpret a Nat as an i64 via two-complement truncation
(the semantics of `as i64` on u64 in the source). -/
def toI64 (n : Nat) : Int :=
  if n % 2 ^ 64 < 2 ^ 63 then (n % 2 ^ 64 : Nat) else (n % 2 ^ 64 : Nat) - 2 ^ 64

/-- Interpret an i32 as a usize (the semantics of `as usize` on i32 on a
64-bit host: sign extension then reinterpretation). -/
def usizeOfI32 (v : Int) : Nat := (v % 2 ^ 64).toNat

/-- Per-pass host state of a transform invocation. -/
structure PluginHostState where
  input_bytes : Bytes
  output_bytes : Bytes
deriving DecidableEq

/-- The input_size host function: the input length cast to i32. -/
def input_size (st : PluginHostState) : Int :=
  toI32 st.input_bytes.length

/-- The write_output host function (translated from the write_output
closure): cast the pointer and length to usize, bounds-check the source
range against the plugin memory via checked_add, and on success replace the
whole output buffer with the copied bytes. -/
def write_output (st : PluginHostState) (mem : Bytes) (src_ptr len : Int) :
    Except Unit PluginHostState :=
  let src := usizeOfI32 src_ptr
  let size := usizeOfI32 len
  if src + size < 2 ^ 64 ∧ src + size ≤ mem.length then
    .ok { st with output_bytes := (mem.drop src).take size }
  else
    .error ()

/-- Behaviour of one registered transform plugin as observed by the host:
whether instantiation succeeds, whether the module exports
lunatic_transform_module, and the final output buffer the invocation
leaves for a given input (none models a trap or host-ABI error during the
call). -/
structure TransformPlugin where
  instOk : Bool
  hasTransformExport : Bool
  run : Bytes → Option Bytes

/-- One pass of the pipeline body (translated from the loop body of
PluginRegistry::transform_module): instantiate, look up the export, call
it, and adopt the output buffer only when non-empty. -/
def transformStep (cur : Bytes) (p : TransformPlugin) : Except Unit Bytes :=
  if p.instOk then
    if p.hasTransformExport then
      match p.run cur with
      | some out => .ok (if out.isEmpty then cur else out)
      | none => .error ()
    else .ok cur
  else .error ()

/-- The transform pipeline (translated from
PluginRegistry::transform_module): early return of the input copy when no
transform plugins are registered, otherwise the passes run in registration
order with errors propagating. -/
def transform_module (ps : List TransformPlugin) (module_bytes : Bytes) :
    Except Unit Bytes :=
  if ps.isEmpty then .ok module_bytes
  else ps.foldlM transformStep module_bytes

/-- The per-pass rule in the words of the specification: a non-empty output
buffer becomes the chain bytes, otherwise the previous bytes pass through
(covering both a missing export and an invocation that never produced
output). -/
def chainPassSpec (cur : Bytes) (p : TransformPlugin) : Bytes :=
  if p.hasTransformExport then
    match p.run cur with
    | some out => if out.isEmpty then cur else out
    | none => cur
  else cur

/-! ### Lifecycle dispatcher (lunatic-plugin/src/lifecycle.rs)

Plugin wasm execution is abstracted by a behaviour record; the dispatcher
loop itself is translated directly.  Module names are carried as their
UTF-8 bytes because the byte length feeds the memory bounds check. -/

/-- Events that plugins can hook into. -/
inductive LifecycleEvent
  | processSpawning (process_id : Nat)
  | processSpawned (process_id : Nat)
  | processExiting (process_id : Nat)
  | processExited (process_id : Nat) (error : Option String)
  | moduleLoading (module_name : Bytes)
  | moduleLoaded (module_name : Bytes)

/-- Map a lifecycle event to its hook export name (translated from
LifecycleDispatcher::event_export_name). -/
def event_export_name : LifecycleEvent → String
  | .processSpawning _ => "lunatic_on_process_spawning"
  | .processSpawned _ => "lunatic_on_process_spawned"
  | .processExiting _ => "lunatic_on_process_exiting"
  | .processExited _ _ => "lunatic_on_process_exited"
  | .moduleLoading _ => "lunatic_on_module_loading"
  | .moduleLoaded _ => "lunatic_on_module_loaded"

/-- A wasm value passed to a hook. -/
inductive HookVal
  | i32 (v : Int)
  | i64 (v : Int)
deriving DecidableEq

/-- Behaviour of one lifecycle plugin as observed by the dispatcher:
whether instantiation with the empty linker succeeds, which export names
the instance provides, the byte size of its exported memory when present,
and which hook calls trap. -/
structure LifecyclePlugin where
  instOk : Bool
  exportsFn : String → Bool
  memSize : Option Nat
  callTraps : String → Bool

/-- Build the argument list for a hook call (translated from
LifecycleDispatcher::build_args): process events pass the process id as
i64; module events write the name into the exported memory at offset 0 and
pass (ptr 0, byte length), failing when the memory export is absent or the
write is out of bounds. -/
def build_args (e : LifecycleEvent) (p : LifecyclePlugin) : Option (List HookVal) :=
  match e with
  | .processSpawning pid | .processSpawned pid | .processExiting pid =>
      some [.i64 (toI64 pid)]
  | .processExited pid _ => some [.i64 (toI64 pid)]
  | .moduleLoading nm | .moduleLoaded nm =>
      match p.memSize with
      | none => none
      | some sz =>
          if nm.length ≤ sz then some [.i32 0, .i32 (toI32 nm.length)]
          else none

/-- What happened to one plugin during a dispatch pass. -/
inductive DispatchOutcome
  | instFailed
  | exportMissing
  | argsFailed
  | trapped
  | hookCalled (args : List HookVal)
deriving DecidableEq

/-- One iteration of the dispatch loop (translated from the body of
LifecycleDispatcher::dispatch): instantiate, look up the export, build
arguments, call; every failure is logged and the loop continues. -/
def dispatchStep (e : LifecycleEvent) (p : LifecyclePlugin) : DispatchOutcome :=
  if p.instOk = false then .instFailed
  else if p.exportsFn (event_export_name e) = false then .exportMissing
  else
    match build_args e p with
    | none => .argsFailed
    | some args =>
        if p.callTraps (event_export_name e) then .trapped
        else .hookCalled args

/-- Dispatch a lifecycle event to all registered plugins (translated from
LifecycleDispatcher::dispatch).  The loop body never breaks or returns, so
the dispatch is the per-plugin outcome list in registration order; its
total type records that no error ever propagates to the caller. -/
def dispatch (e : LifecycleEvent) (ps : List LifecyclePlugin) :
    List DispatchOutcome :=
  ps.map (dispatchStep e)

/-! ### Wasm binary codec primitives

The module editor delegates binary reading to the wasmparser crate and
binary writing to the wasm-encoder crate; both follow the WebAssembly core
binary format, which is embedded here directly (LEB128 integers, length
prefixed names and vectors, tagged entity descriptions).  The unsigned
LEB128 writer of the SDK above is the same algorithm wasm-encoder uses, so
it serves as the byte writer. -/

/-- LEB128 reader returning the decoded value and the remaining bytes,
with the proof that at least one byte was consumed (used for termination
of the section walker). -/
def readLebS : (bs : Bytes) → Option (Nat × { r : Bytes // r.length < bs.length })
  | [] => none
  | b :: rest =>
    if b < 128 then some (b, ⟨rest, by simp⟩)
    else
      match readLebS rest with
      | none => none
      | some (v, ⟨r, hr⟩) =>
          some (v * 128 + (b - 128), ⟨r, by simpa using Nat.lt_succ_of_lt hr⟩)

/-- Read an unsigned LEB128 value bounded as a u32 (wasmparser rejects
values that do not fit). -/
def readU32 (bs : Bytes) : Option (Nat × Bytes) :=
  match readLebS bs with
  | none => none
  | some (v, r) => if v < 2 ^ 32 then some (v, r.1) else none

/-- Read an unsigned LEB128 value bounded as a u64. -/
def readU64 (bs : Bytes) : Option (Nat × Bytes) :=
  match readLebS bs with
  | none => none
  | some (v, r) => if v < 2 ^ 64 then some (v, r.1) else none

/-- Read exactly n bytes. -/
def readN (n : Nat) (bs : Bytes) : Option (Bytes × Bytes) :=
  if n ≤ bs.length then some (bs.take n, bs.drop n) else none

/-- Read a length-prefixed name. -/
def readName (bs : Bytes) : Option (Bytes × Bytes) :=
  match readU32 bs with
  | none => none
  | some (n, r) => readN n r

/-- Read a fixed count of items. -/
def readList {α : Type} (f : Bytes → Option (α × Bytes)) :
    Nat → Bytes → Option (List α × Bytes)
  | 0, bs => some ([], bs)
  | n + 1, bs =>
    match f bs with
    | none => none
    | some (a, r) =>
      match readList f n r with
      | none => none
      | some (as0, r2) => some (a :: as0, r2)

/-- Read a count-prefixed vector. -/
def readVec {α : Type} (f : Bytes → Option (α × Bytes)) (bs : Bytes) :
    Option (List α × Bytes) :=
  match readU32 bs with
  | none => none
  | some (n, r) => readList f n r

/-- Run a vector reader over a whole section payload; wasmparser reports an
error when the payload is not fully consumed. -/
def runVec {α : Type} (f : Bytes → Option (α × Bytes)) (bs : Bytes) :
    Option (List α) :=
  match readVec f bs with
  | some (xs, []) => some xs
  | _ => none

/-- Encode a length-prefixed name. -/
def encodeName (nm : Bytes) : Bytes :=
  encode_leb128_u32 nm.length ++ nm

/-- Encode a count-prefixed vector. -/
def encodeVec {α : Type} (f : α → Bytes) (xs : List α) : Bytes :=
  encode_leb128_u32 xs.length ++ (xs.map f).flatten

/-- Wasm value types reachable through the module editor (the translate
functions accept the numeric types plus funcref and externref and reject
every other reference type). -/
inductive WValType
  | i32
  | i64
  | f32
  | f64
  | v128
  | funcref
  | externref
deriving DecidableEq

/-- Binary code of a value type. -/
def WValType.toByte : WValType → Nat
  | .i32 => 0x7F
  | .i64 => 0x7E
  | .f32 => 0x7D
  | .f64 => 0x7C
  | .v128 => 0x7B
  | .funcref => 0x70
  | .externref => 0x6F

/-- Parse a value type byte. -/
def WValType.ofByte : Nat → Option WValType
  | 0x7F => some .i32
  | 0x7E => some .i64
  | 0x7D => some .f32
  | 0x7C => some .f64
  | 0x7B => some .v128
  | 0x70 => some .funcref
  | 0x6F => some .externref
  | _ => none

/-- Read one value type. -/
def readValType : Bytes → Option (WValType × Bytes)
  | [] => none
  | b :: r =>
    match WValType.ofByte b with
    | none => none
    | some v => some (v, r)

/-- A function type: parameter and result value types. -/
structure WFuncType where
  params : List WValType
  results : List WValType
deriving DecidableEq

/-- Encode a function type (0x60 then the two vectors). -/
def encodeFuncType (ft : WFuncType) : Bytes :=
  0x60 :: (encodeVec (fun v => [v.toByte]) ft.params ++
    encodeVec (fun v => [v.toByte]) ft.results)

/-- Read a function type: any composite form other than 0x60 makes the
module editor fail (the UnsupportedType error and a malformed byte both
surface as a parse failure). -/
def readFuncType (bs : Bytes) : Option (WFuncType × Bytes) :=
  match bs with
  | [] => none
  | b :: r =>
    if b = 0x60 then
      match readVec readValType r with
      | none => none
      | some (ps, r1) =>
        match readVec readValType r1 with
        | none => none
        | some (rs, r2) => some (⟨ps, rs⟩, r2)
    else none

/-- Reference types accepted for table elements. -/
inductive WRefType
  | funcref
  | externref
deriving DecidableEq

/-- Binary code of a reference type. -/
def WRefType.toByte : WRefType → Nat
  | .funcref => 0x70
  | .externref => 0x6F

/-- Parse a reference type byte. -/
def WRefType.ofByte : Nat → Option WRefType
  | 0x70 => some .funcref
  | 0x6F => some .externref
  | _ => none

/-- Table type as carried by translate_import. -/
structure WTableType where
  elementType : WRefType
  minimum : Nat
  maximum : Option Nat
  table64 : Bool
deriving DecidableEq

/-- Memory type as carried by translate_import. -/
structure WMemoryType where
  minimum : Nat
  maximum : Option Nat
  memory64 : Bool
  shared : Bool
  pageSizeLog2 : Option Nat
deriving DecidableEq

/-- Global type as carried by translate_import. -/
structure WGlobalType where
  valType : WValType
  mutable : Bool
  shared : Bool
deriving DecidableEq

/-- Imported entity description (the variants translate_import produces). -/
inductive WEntityType
  | function (tyIdx : Nat)
  | table (t : WTableType)
  | memory (m : WMemoryType)
  | global (g : WGlobalType)
  | tag (funcTypeIdx : Nat)
deriving DecidableEq

/-- Encode a table type: element type, limits flag byte (bit 0 maximum
present, bit 2 table64), then the limits. -/
def encodeTableType (t : WTableType) : Bytes :=
  t.elementType.toByte ::
    ((if t.maximum.isSome then 1 else 0) + (if t.table64 then 4 else 0)) ::
    (encode_leb128_u32 t.minimum ++
      match t.maximum with
      | some m => encode_leb128_u32 m
      | none => [])

/-- Read a table type. -/
def readTableType (bs : Bytes) : Option (WTableType × Bytes) :=
  match bs with
  | [] => none
  | eb :: rest =>
    match WRefType.ofByte eb with
    | none => none
    | some elemTy =>
      match rest with
      | [] => none
      | flags :: r1 =>
        match readU64 r1 with
        | none => none
        | some (mn, r2) =>
          if flags % 2 = 1 then
            match readU64 r2 with
            | none => none
            | some (mx, r3) =>
                some (⟨elemTy, mn, some mx, flags / 4 % 2 = 1⟩, r3)
          else some (⟨elemTy, mn, none, flags / 4 % 2 = 1⟩, r2)

/-- Encode a memory type: limits flag byte (bit 0 maximum present, bit 1
shared, bit 2 memory64, bit 3 custom page size), then the limits and the
optional page size. -/
def encodeMemoryType (m : WMemoryType) : Bytes :=
  ((if m.maximum.isSome then 1 else 0) + (if m.shared then 2 else 0) +
     (if m.memory64 then 4 else 0) + (if m.pageSizeLog2.isSome then 8 else 0)) ::
    (encode_leb128_u32 m.minimum ++
      (match m.maximum with
       | some mx => encode_leb128_u32 mx
       | none => []) ++
      (match m.pageSizeLog2 with
       | some ps => encode_leb128_u32 ps
       | none => []))

/-- Read a memory type. -/
def readMemoryType (bs : Bytes) : Option (WMemoryType × Bytes) :=
  match bs with
  | [] => none
  | flags :: r1 =>
    match readU64 r1 with
    | none => none
    | some (mn, r2) =>
      let contMax : Option Nat × Bytes → Option (WMemoryType × Bytes) :=
        fun (mx, r3) =>
          if flags / 8 % 2 = 1 then
            match readU64 r3 with
            | none => none
            | some (ps, r4) =>
                some (⟨mn, mx, flags / 4 % 2 = 1, flags / 2 % 2 = 1, some ps⟩, r4)
          else some (⟨mn, mx, flags / 4 % 2 = 1, flags / 2 % 2 = 1, none⟩, r3)
      if flags % 2 = 1 then
        match readU64 r2 with
        | none => none
        | some (mx, r3) => contMax (some mx, r3)
      else contMax (none, r2)

/-- Encode a global type: value type then a flag byte (bit 0 mutable,
bit 1 shared). -/
def encodeGlobalType (g : WGlobalType) : Bytes :=
  [g.valType.toByte, (if g.mutable then 1 else 0) + (if g.shared then 2 else 0)]

/-- Read a global type. -/
def readGlobalType (bs : Bytes) : Option (WGlobalType × Bytes) :=
  match bs with
  | [] => none
  | b :: rest =>
    match WValType.ofByte b with
    | none => none
    | some vt =>
      match rest with
      | [] => none
      | flags :: r1 => some (⟨vt, flags % 2 = 1, flags / 2 % 2 = 1⟩, r1)

/-- Encode an entity description (import desc tags 0x00 to 0x04; a tag
always carries the exception attribute byte 0x00). -/
def encodeEntity : WEntityType → Bytes
  | .function i => 0x00 :: encode_leb128_u32 i
  | .table t => 0x01 :: encodeTableType t
  | .memory m => 0x02 :: encodeMemoryType m
  | .global g => 0x03 :: encodeGlobalType g
  | .tag i => 0x04 :: 0x00 :: encode_leb128_u32 i

/-- Read an entity description. -/
def readEntity (bs : Bytes) : Option (WEntityType × Bytes) :=
  match bs with
  | [] => none
  | 0x00 :: r =>
    match readU32 r with
    | none => none
    | some (i, r1) => some (.function i, r1)
  | 0x01 :: r =>
    match readTableType r with
    | none => none
    | some (t, r1) => some (.table t, r1)
  | 0x02 :: r =>
    match readMemoryType r with
    | none => none
    | some (m, r1) => some (.memory m, r1)
  | 0x03 :: r =>
    match readGlobalType r with
    | none => none
    | some (g, r1) => some (.global g, r1)
  | 0x04 :: r =>
    match r with
    | [] => none
    | _attr :: r0 =>
      match readU32 r0 with
      | none => none
      | some (i, r1) => some (.tag i, r1)
  | _ :: _ => none

/-- Parsed import stored structurally for re-encoding. -/
structure WImport where
  importModule : Bytes
  name : Bytes
  ty : WEntityType
deriving DecidableEq

/-- Encode an import entry. -/
def encodeImport (imp : WImport) : Bytes :=
  encodeName imp.importModule ++ encodeName imp.name ++ encodeEntity imp.ty

/-- Read an import entry. -/
def readImport (bs : Bytes) : Option (WImport × Bytes) :=
  match readName bs with
  | none => none
  | some (md, r1) =>
    match readName r1 with
    | none => none
    | some (nm, r2) =>
      match readEntity r2 with
      | none => none
      | some (ty, r3) => some (⟨md, nm, ty⟩, r3)

/-- Export kinds (FuncExact re-encodes as Func, so it never reaches the
structural form). -/
inductive WExternalKind
  | func
  | table
  | memory
  | global
  | tag
deriving DecidableEq

/-- Binary code of an export kind. -/
def WExternalKind.toByte : WExternalKind → Nat
  | .func => 0
  | .table => 1
  | .memory => 2
  | .global => 3
  | .tag => 4

/-- Parse an export kind byte. -/
def WExternalKind.ofByte : Nat → Option WExternalKind
  | 0 => some .func
  | 1 => some .table
  | 2 => some .memory
  | 3 => some .global
  | 4 => some .tag
  | _ => none

/-- An export: either freshly added through add_function_export or parsed
from the original module. -/
inductive ContextExport
  | newFunction (name : Bytes) (funcIdx : Nat)
  | parsed (name : Bytes) (kind : WExternalKind) (index : Nat)
deriving DecidableEq

/-- Encode an export entry (a NewFunction export encodes with kind Func). -/
def encodeExport : ContextExport → Bytes
  | .newFunction nm i => encodeName nm ++ (0 :: encode_leb128_u32 i)
  | .parsed nm k i => encodeName nm ++ (k.toByte :: encode_leb128_u32 i)

/-- Read an export entry (always produces the parsed form). -/
def readExport (bs : Bytes) : Option (ContextExport × Bytes) :=
  match readName bs with
  | none => none
  | some (nm, r1) =>
    match r1 with
    | [] => none
    | kb :: r2 =>
      match WExternalKind.ofByte kb with
      | none => none
      | some k =>
        match readU32 r2 with
        | none => none
        | some (i, r3) => some (.parsed nm k i, r3)

/-- What an export entry looks like after encoding and re-parsing: a
NewFunction export comes back as a parsed Func export. -/
def exportParsedForm : ContextExport → ContextExport
  | .newFunction nm i => .parsed nm .func i
  | .parsed nm k i => .parsed nm k i

/-- A code entry: locals as (count, type) pairs plus raw body bytes
(the operators including the trailing end byte). -/
abbrev CodeEntry := List (Nat × WValType) × Bytes

/-- Encode one local declaration. -/
def encodeLocal (l : Nat × WValType) : Bytes :=
  encode_leb128_u32 l.1 ++ [l.2.toByte]

/-- Read one local declaration. -/
def readLocal (bs : Bytes) : Option ((Nat × WValType) × Bytes) :=
  match readU32 bs with
  | none => none
  | some (c, r1) =>
    match readValType r1 with
    | none => none
    | some (v, r2) => some ((c, v), r2)

/-- Encode one code entry: entry size, locals vector, then the raw body. -/
def encodeCodeEntry (c : CodeEntry) : Bytes :=
  encode_leb128_u32 (encodeVec encodeLocal c.1 ++ c.2).length ++
    (encodeVec encodeLocal c.1 ++ c.2)

/-- Read one code entry: the declared size delimits the entry; the bytes
after the locals vector are the raw body (translated from the
CodeSectionEntry arm: operator start through the entry end). -/
def readCodeEntry (bs : Bytes) : Option (CodeEntry × Bytes) :=
  match readU32 bs with
  | none => none
  | some (size, r1) =>
    match readN size r1 with
    | none => none
    | some (entry, rest) =>
      match readVec readLocal entry with
      | none => none
      | some (locals, body) => some ((locals, body), rest)

/-- A raw section preserved as-is. -/
structure RawSection where
  id : Nat
  data : Bytes
deriving DecidableEq

/-- The structured form of a wasm module used by the editor. -/
structure ModuleContext where
  types : List WFuncType
  functions : List Nat
  code_section : List CodeEntry
  imports : List WImport
  import_func_count : Nat
  exports : List ContextExport
  sections : List RawSection
  function_names : List (Bytes × Nat)
deriving DecidableEq

/-- The context every parse starts from. -/
def emptyCtx : ModuleContext :=
  { types := []
    functions := []
    code_section := []
    imports := []
    import_func_count := 0
    exports := []
    sections := []
    function_names := [] }

/-- The wasm module preamble: magic plus version 1. -/
def wasmHeader : Bytes := [0x00, 0x61, 0x73, 0x6D, 0x01, 0x00, 0x00, 0x00]

/-- Split a byte stream into (section id, payload) chunks: id byte, u32
LEB size, then that many payload bytes (the streaming layer of
wasmparser). -/
def sectionChunks : (bs : Bytes) → Option (List (Nat × Bytes))
  | [] => some []
  | id :: rest =>
    match readLebS rest with
    | none => none
    | some (size, r1) =>
      if size < 2 ^ 32 ∧ size ≤ r1.1.length then
        match sectionChunks (r1.1.drop size) with
        | none => none
        | some chunks => some ((id, r1.1.take size) :: chunks)
      else none
termination_by bs => bs.length
decreasing_by
  have h2 : (r1.1.drop size).length ≤ r1.1.length := by
    simp [List.length_drop]
  simp only [List.length_cons]
  omega

/-- Count the imports of function kind. -/
def countFuncImports (imps : List WImport) : Nat :=
  (imps.filter fun i =>
    match i.ty with
    | .function _ => true
    | _ => false).length

/-- Fold the parsed export entries into the function-name map (translated
from the ExportSection arm: only exports of Func kind are indexed). -/
def insertFuncNames (m : List (Bytes × Nat)) (es : List ContextExport) :
    List (Bytes × Nat) :=
  es.foldl
    (fun acc e =>
      match e with
      | .parsed nm .func idx => mapInsert nm idx acc
      | _ => acc)
    m

/-- Process one section payload into the accumulating context (translated
from the payload match of ModuleContext::new).  Recognised structured
sections are decoded; raw standard sections are captured verbatim; a tag
section falls into the skip arm of the source; any other id is a parse
error. -/
def applySection (ctx : ModuleContext) (sec : Nat × Bytes) : Option ModuleContext :=
  match sec.1 with
  | 1 =>
    match runVec readFuncType sec.2 with
    | none => none
    | some ts => some { ctx with types := ctx.types ++ ts }
  | 2 =>
    match runVec readImport sec.2 with
    | none => none
    | some imps =>
        some { ctx with
                 imports := ctx.imports ++ imps
                 import_func_count := ctx.import_func_count + countFuncImports imps }
  | 3 =>
    match runVec readU32 sec.2 with
    | none => none
    | some fs => some { ctx with functions := ctx.functions ++ fs }
  | 7 =>
    match runVec readExport sec.2 with
    | none => none
    | some es =>
        some { ctx with
                 exports := ctx.exports ++ es
                 function_names := insertFuncNames ctx.function_names es }
  | 10 =>
    match runVec readCodeEntry sec.2 with
    | none => none
    | some cs => some { ctx with code_section := ctx.code_section ++ cs }
  | 0 => some { ctx with sections := ctx.sections ++ [⟨0, sec.2⟩] }
  | 4 => some { ctx with sections := ctx.sections ++ [⟨4, sec.2⟩] }
  | 5 => some { ctx with sections := ctx.sections ++ [⟨5, sec.2⟩] }
  | 6 => some { ctx with sections := ctx.sections ++ [⟨6, sec.2⟩] }
  | 8 => some { ctx with sections := ctx.sections ++ [⟨8, sec.2⟩] }
  | 9 => some { ctx with sections := ctx.sections ++ [⟨9, sec.2⟩] }
  | 11 => some { ctx with sections := ctx.sections ++ [⟨11, sec.2⟩] }
  | 12 => some { ctx with sections := ctx.sections ++ [⟨12, sec.2⟩] }
  | 13 => some ctx
  | _ => none

/-- Parse a wasm binary into a ModuleContext (translated from
ModuleContext::new): check the preamble, walk the sections in file order
and translate each recognised payload. -/
def ModuleContext.new (bytes : Bytes) : Option ModuleContext :=
  if bytes.take 8 = wasmHeader then
    match sectionChunks (bytes.drop 8) with
    | none => none
    | some chunks => chunks.foldlM applySection emptyCtx
  else none

/-- Add a new function type; returns the new context and the type index
(translated from ModuleContext::add_function_type). -/
def ModuleContext.add_function_type (ctx : ModuleContext)
    (params results : List WValType) : ModuleContext × Nat :=
  ({ ctx with types := ctx.types ++ [⟨params, results⟩] }, ctx.types.length)

/-- Add a new function; returns the new context and the function index
accounting for imported functions (translated from
ModuleContext::add_function). -/
def ModuleContext.add_function (ctx : ModuleContext) (type_index : Nat)
    (locals : List (Nat × WValType)) (body : Bytes) : ModuleContext × Nat :=
  ({ ctx with
       functions := ctx.functions ++ [type_index]
       code_section := ctx.code_section ++ [(locals, body)] },
   ctx.import_func_count + ctx.functions.length)

/-- Append a NewFunction export (translated from
ModuleContext::add_function_export). -/
def ModuleContext.add_function_export (ctx : ModuleContext) (name : Bytes)
    (func_idx : Nat) : ModuleContext :=
  { ctx with exports := ctx.exports ++ [.newFunction name func_idx] }

/-- Look up a function index by export name (translated from
ModuleContext::function_by_name). -/
def ModuleContext.function_by_name (ctx : ModuleContext) (name : Bytes) :
    Option Nat :=
  mapLookup name ctx.function_names

/-- Wrap a payload as a binary section: id byte, u32 LEB size, payload. -/
def sectionBytes (id : Nat) (payload : Bytes) : Bytes :=
  id :: (encode_leb128_u32 payload.length ++ payload)

/-- View a raw section as an (id, payload) chunk. -/
def toChunk (s : RawSection) : Nat × Bytes := (s.id, s.data)

/-- Raw sections with table, memory or global id. -/
def isIn46 (s : RawSection) : Bool := decide (4 ≤ s.id ∧ s.id ≤ 6)

/-- Raw sections with a given id. -/
def isId (n : Nat) (s : RawSection) : Bool := s.id == n

/-- Raw sections deferred while searching for a data-count section
(everything that is not custom, data or data-count). -/
def isDeferrable (s : RawSection) : Bool :=
  !(s.id == 0 || s.id == 11 || s.id == 12)

/-- The section chunks emitted by ModuleContext::encode, in its order:
type, import, function, a run of table/memory/global raw sections, export,
a run of start sections, a run of element sections, the data-count run
found after deferring other raw sections, code, a run of data sections,
the deferred raw sections, then everything remaining (custom sections
last).  Empty structured sections are omitted. -/
def ModuleContext.encodeChunks (ctx : ModuleContext) : List (Nat × Bytes) :=
  let typeChunks :=
    if ctx.types.isEmpty then [] else [(1, encodeVec encodeFuncType ctx.types)]
  let importChunks :=
    if ctx.imports.isEmpty then [] else [(2, encodeVec encodeImport ctx.imports)]
  let funcChunks :=
    if ctx.functions.isEmpty then []
    else [(3, encodeVec encode_leb128_u32 ctx.functions)]
  let r46 := ctx.sections.takeWhile isIn46
  let s1 := ctx.sections.dropWhile isIn46
  let exportChunks :=
    if ctx.exports.isEmpty then [] else [(7, encodeVec encodeExport ctx.exports)]
  let r8 := s1.takeWhile (isId 8)
  let s2 := s1.dropWhile (isId 8)
  let r9 := s2.takeWhile (isId 9)
  let s3 := s2.dropWhile (isId 9)
  let deferred := s3.takeWhile isDeferrable
  let s4 := s3.dropWhile isDeferrable
  let r12 := s4.takeWhile (isId 12)
  let s5 := s4.dropWhile (isId 12)
  let codeChunks :=
    if ctx.code_section.isEmpty then []
    else [(10, encodeVec encodeCodeEntry ctx.code_section)]
  let r11 := s5.takeWhile (isId 11)
  let s6 := s5.dropWhile (isId 11)
  typeChunks ++ importChunks ++ funcChunks ++ r46.map toChunk ++
    exportChunks ++ r8.map toChunk ++ r9.map toChunk ++ r12.map toChunk ++
    codeChunks ++ r11.map toChunk ++ deferred.map toChunk ++ s6.map toChunk

/-- Encode the context back to binary (translated from
ModuleContext::encode; the source signature is a Result whose only error
path, translate_export_kind, is total, so encoding always succeeds and the
model returns the bytes directly). -/
def ModuleContext.encode (ctx : ModuleContext) : Bytes :=
  wasmHeader ++ (ctx.encodeChunks.map fun c => sectionBytes c.1 c.2).flatten

/-- The name used by the additive-correctness scenario: the UTF-8 bytes of
the string f. -/
def fname : Bytes := [102]

/-- The three additive edits of the scenario: add a function type, add a
function with that type, export it under the name f.  Returns the edited
context and the function index the export received. -/
def addedContext (ctx : ModuleContext) (params results : List WValType)
    (locals : List (Nat × WValType)) (body : Bytes) : ModuleContext × Nat :=
  let p1 := ctx.add_function_type params results
  let p2 := p1.1.add_function p1.2 locals body
  (p2.1.add_function_export fname p2.2, p2.2)

/-- The integers of an entity description fit the widths their binary form
carries. -/
def WEntityType.sizeOk : WEntityType → Prop
  | .function i => i < 2 ^ 32
  | .table t =>
      t.minimum < 2 ^ 64 ∧
      (match t.maximum with
       | some m => m < 2 ^ 64
       | none => True)
  | .memory m =>
      m.minimum < 2 ^ 64 ∧
      (match m.maximum with
       | some mx => mx < 2 ^ 64
       | none => True) ∧
      (match m.pageSizeLog2 with
       | some ps => ps < 2 ^ 64
       | none => True)
  | .global _ => True
  | .tag i => i < 2 ^ 32

/-- Bound for an export entry. -/
def exportSizeOk : ContextExport → Prop
  | .newFunction nm i => nm.length < 2 ^ 32 ∧ i < 2 ^ 32
  | .parsed nm _ i => nm.length < 2 ^ 32 ∧ i < 2 ^ 32

/-- The ids of the raw sections the encoder can emit and the parser
captures verbatim. -/
def rawIdOk (i : Nat) : Prop :=
  i = 0 ∨ i = 4 ∨ i = 5 ∨ i = 6 ∨ i = 8 ∨ i = 9 ∨ i = 11 ∨ i = 12

/-- All counts, indices and payload lengths of a context fit the integer
widths the binary format assigns them (u32 vector counts and indices, u64
limits, u32 section and entry sizes).  Every context produced by parsing a
real (at most 4 GiB) binary satisfies these bounds; they become wrap-around
hazards in the source only for modules too large to exist as wasm files. -/
def SizesOk (c : ModuleContext) : Prop :=
  (c.types.length < 2 ^ 32 ∧
    ∀ ft ∈ c.types, ft.params.length < 2 ^ 32 ∧ ft.results.length < 2 ^ 32) ∧
  (c.imports.length < 2 ^ 32 ∧
    ∀ imp ∈ c.imports,
      imp.importModule.length < 2 ^ 32 ∧ imp.name.length < 2 ^ 32 ∧ imp.ty.sizeOk) ∧
  (c.functions.length < 2 ^ 32 ∧ ∀ t ∈ c.functions, t < 2 ^ 32) ∧
  (c.exports.length < 2 ^ 32 ∧ ∀ e ∈ c.exports, exportSizeOk e) ∧
  (c.code_section.length < 2 ^ 32 ∧
    ∀ ce ∈ c.code_section,
      ce.1.length < 2 ^ 32 ∧ (∀ l ∈ ce.1, l.1 < 2 ^ 32) ∧
      (encodeVec encodeLocal ce.1 ++ ce.2).length < 2 ^ 32) ∧
  (∀ s ∈ c.sections, rawIdOk s.id ∧ s.data.length < 2 ^ 32) ∧
  (encodeVec encodeFuncType c.types).length < 2 ^ 32 ∧
  (encodeVec encodeImport c.imports).length < 2 ^ 32 ∧
  (encodeVec encode_leb128_u32 c.functions).length < 2 ^ 32 ∧
  (encodeVec encodeExport c.exports).length < 2 ^ 32 ∧
  (encodeVec encodeCodeEntry c.code_section).length < 2 ^ 32

/-- The order in which encode re-emits the preserved raw sections: the
table/memory/global run, the start run, the element run, the data-count
run found after deferring, the data run, the deferred sections, then
everything remaining. -/
def rawEmitOrder (ss : List RawSection) : List RawSection :=
  let r46 := ss.takeWhile isIn46
  let s1 := ss.dropWhile isIn46
  let r8 := s1.takeWhile (isId 8)
  let s2 := s1.dropWhile (isId 8)
  let r9 := s2.takeWhile (isId 9)
  let s3 := s2.dropWhile (isId 9)
  let deferred := s3.takeWhile isDeferrable
  let s4 := s3.dropWhile isDeferrable
  let r12 := s4.takeWhile (isId 12)
  let s5 := s4.dropWhile (isId 12)
  let r11 := s5.takeWhile (isId 11)
  let s6 := s5.dropWhile (isId 11)
  r46 ++ r8 ++ r9 ++ r12 ++ r11 ++ deferred ++ s6

/-- The context obtained by re-parsing an encoded context: structured
content survives unchanged (exports in their parsed form), the import
function count is recomputed, raw sections appear in emission order, and
the name map is rebuilt from the emitted function exports. -/
def reParsed (c : ModuleContext) : ModuleContext :=
  { types := c.types
    functions := c.functions
    code_section := c.code_section
    imports := c.imports
    import_func_count := countFuncImports c.imports
    exports := c.exports.map exportParsedForm
    sections := rawEmitOrder c.sections
    function_names := insertFuncNames [] (c.exports.map exportParsedForm) }

/-! ### Helper lemmas -/

theorem mapLookup_mapInsert_self {κ α : Type} [DecidableEq κ] (k : κ) (v : α)
    (m : List (κ × α)) : mapLookup k (mapInsert k v m) = some v := by
  induction m with
  | nil => simp [mapInsert, mapLookup]
  | cons kv rest ih =>
    obtain ⟨k1, v1⟩ := kv
    by_cases h : k1 = k
    · simp [mapInsert, h, mapLookup]
    · simp [mapInsert, h, mapLookup, ih]

theorem mapLookup_mapInsert_ne {κ α : Type} [DecidableEq κ] (k k2 : κ) (v : α)
    (m : List (κ × α)) (hne : k2 ≠ k) :
    mapLookup k2 (mapInsert k v m) = mapLookup k2 m := by
  induction m with
  | nil => simp [mapInsert, mapLookup, Ne.symm hne]
  | cons kv rest ih =>
    obtain ⟨k1, v1⟩ := kv
    by_cases h : k1 = k
    · subst h
      simp [mapInsert, mapLookup, Ne.symm hne]
    · simp [mapInsert, h, mapLookup, ih]

theorem mapLookup_mapEntryPush_self {κ α : Type} [DecidableEq κ] (k : κ) (v : α)
    (m : List (κ × List α)) :
    mapLookup k (mapEntryPush k v m) = some ((mapLookup k m).getD [] ++ [v]) := by
  induction m with
  | nil => simp [mapEntryPush, mapLookup]
  | cons kv rest ih =>
    obtain ⟨k1, vs⟩ := kv
    by_cases h : k1 = k
    · simp [mapEntryPush, h, mapLookup]
    · simp [mapEntryPush, h, mapLookup, ih]

theorem mapLookup_mapEntryPush_ne {κ α : Type} [DecidableEq κ] (k k2 : κ) (v : α)
    (m : List (κ × List α)) (hne : k2 ≠ k) :
    mapLookup k2 (mapEntryPush k v m) = mapLookup k2 m := by
  induction m with
  | nil => simp [mapEntryPush, mapLookup, Ne.symm hne]
  | cons kv rest ih =>
    obtain ⟨k1, vs⟩ := kv
    by_cases h : k1 = k
    · subst h
      simp [mapEntryPush, mapLookup, Ne.symm hne]
    · simp [mapEntryPush, h, mapLookup, ih]

theorem list_set_self {α : Type} (l : List α) (i : Nat) (a : α)
    (h : l[i]? = some a) : l.set i a = l := by
  induction l generalizing i with
  | nil => simp at h
  | cons x xs ih =>
    cases i with
    | zero =>
      simp at h
      simp [h]
    | succ n =>
      simp at h
      simp [ih n h]

theorem encode_leb128_u32_shape (n : Nat) :
    ∃ bs b, encode_leb128_u32 n = bs ++ [b] ∧
      (∀ x ∈ bs, 128 ≤ x ∧ x < 256) ∧ b < 128 := by
  induction n using encode_leb128_u32.induct with
  | case1 n h =>
    refine ⟨[], n, ?_, by simp, h⟩
    simp [encode_leb128_u32, h]
  | case2 n h ih =>
    obtain ⟨bs, b, heq, hbs, hb⟩ := ih
    refine ⟨(n % 128 + 128) :: bs, b, ?_, ?_, hb⟩
    · rw [encode_leb128_u32.eq_def]
      simp [h, heq]
    · intro x hx
      rcases List.mem_cons.mp hx with hx | hx
      · subst hx
        have := Nat.mod_lt n (show 0 < 128 by omega)
        omega
      · exact hbs x hx

theorem transform_module_eq_foldlM (ps : List TransformPlugin) (B : Bytes) :
    transform_module ps B = ps.foldlM transformStep B := by
  cases ps <;> rfl

/-! ### Claim theorems and witnesses -/

/-- C1: transform_module threads the bytes through the registered transform
plugins in registration order; in each pass a non-empty output buffer
becomes the chain bytes and otherwise (missing lunatic_transform_module
export, or an invocation that never produced output) the previous bytes
pass through unchanged; with no transform plugins the result is the input.
The hypotheses restrict attention to passes whose instantiation and hook
call complete, which is what the claim describes (a trap aborts the whole
chain instead). -/
theorem transform_module_spec (ps : List TransformPlugin) (B : Bytes)
    (hinst : ∀ p ∈ ps, p.instOk = true)
    (hrun : ∀ p ∈ ps, p.hasTransformExport = true → ∀ c, (p.run c).isSome = true) :
    transform_module ps B = .ok (ps.foldl chainPassSpec B) ∧
    transform_module [] B = .ok B := by
  constructor
  · rw [transform_module_eq_foldlM]
    induction ps generalizing B with
    | nil => rfl
    | cons p rest ih =>
      have hi : p.instOk = true := hinst p (List.mem_cons_self p rest)
      have hstep : transformStep B p = .ok (chainPassSpec B p) := by
        by_cases hx : p.hasTransformExport = true
        · have hsome := hrun p (List.mem_cons_self p rest) hx B
          obtain ⟨out, hout⟩ := Option.isSome_iff_exists.mp hsome
          simp [transformStep, chainPassSpec, hi, hx, hout]
        · simp [transformStep, chainPassSpec, hi, hx]
      rw [List.foldlM_cons, hstep]
      have ih2 := ih (chainPassSpec B p)
        (fun q hq => hinst q (List.mem_cons_of_mem p hq))
        (fun q hq => hrun q (List.mem_cons_of_mem p hq))
      simpa [List.foldl_cons] using ih2
  · rfl

/-- Witness for C1 at a concrete two-plugin chain (an appender followed by
a pass that produces no output). -/
theorem transform_module_spec_witness :
    transform_module
      [⟨true, true, fun c => some (c ++ [170])⟩,
       ⟨true, true, fun _ => some []⟩] [1, 2] =
      .ok (List.foldl chainPassSpec [1, 2]
        [⟨true, true, fun c => some (c ++ [170])⟩,
         ⟨true, true, fun _ => some []⟩]) ∧
    transform_module [] [1, 2] = .ok [1, 2] :=
  transform_module_spec _ _
    (by
      intro p hp
      rcases List.mem_cons.mp hp with h | hp
      · subst h; rfl
      · rcases List.mem_cons.mp hp with h | hp
        · subst h; rfl
        · simp at hp)
    (by
      intro p hp hx c
      rcases List.mem_cons.mp hp with h | hp
      · subst h; rfl
      · rcases List.mem_cons.mp hp with h | hp
        · subst h; rfl
        · simp at hp)

/-- C2: dispatch never propagates an error (its embedding is a total
function on the plugin list) and a failure at any plugin never prevents a
later plugin from being processed for the same event: the outcome list has
one entry per plugin in registration order and splits around any plugin
independently of what the plugins before or after it do. -/
theorem dispatch_robust (e : LifecycleEvent) (ps : List LifecyclePlugin) :
    (dispatch e ps).length = ps.length ∧
    (∀ pre p post, ps = pre ++ p :: post →
      dispatch e ps = dispatch e pre ++ dispatchStep e p :: dispatch e post) := by
  constructor
  · simp [dispatch]
  · intro pre p post h
    subst h
    simp [dispatch]

/-- Witness for C2: an event dispatched over a failing plugin followed by a
healthy one still processes the second plugin. -/
theorem dispatch_robust_witness :
    dispatch (.processSpawned 1)
        [⟨false, fun _ => false, none, fun _ => false⟩,
         ⟨true, fun _ => true, some 100, fun _ => false⟩] =
      dispatch (.processSpawned 1) [⟨false, fun _ => false, none, fun _ => false⟩] ++
        dispatchStep (.processSpawned 1) ⟨true, fun _ => true, some 100, fun _ => false⟩ ::
          dispatch (.processSpawned 1) [] :=
  (dispatch_robust (.processSpawned 1) _).2
    [⟨false, fun _ => false, none, fun _ => false⟩]
    ⟨true, fun _ => true, some 100, fun _ => false⟩ [] rfl

/-- C3: when the wasm bytes fail to compile, register_wasm returns an error
and every registry component (name map, transform order, host-function
namespaces, lifecycle lists) is unchanged. -/
theorem register_wasm_compile_error (compile : Bytes → Option Nat)
    (reg : PluginRegistry) (info : PluginInfo) (wasm : Bytes)
    (h : compile wasm = none) :
    PluginRegistry.register_wasm compile reg info wasm = (reg, false) ∧
    (PluginRegistry.register_wasm compile reg info wasm).1.plugins = reg.plugins ∧
    (PluginRegistry.register_wasm compile reg info wasm).1.module_transform_plugins =
      reg.module_transform_plugins ∧
    (PluginRegistry.register_wasm compile reg info wasm).1.host_function_plugins =
      reg.host_function_plugins ∧
    (PluginRegistry.register_wasm compile reg info wasm).1.lifecycle_plugins =
      reg.lifecycle_plugins ∧
    (PluginRegistry.register_wasm compile reg info wasm).1.lifecycle_dispatcher =
      reg.lifecycle_dispatcher := by
  simp [PluginRegistry.register_wasm, h]

/-- Witness for C3 at a compiler that rejects everything and the fresh
registry. -/
theorem register_wasm_compile_error_witness :
    PluginRegistry.register_wasm (fun _ => none) PluginRegistry.new
        ⟨"bad", (0, 1, 0), [], []⟩ [1, 2, 3] = (PluginRegistry.new, false) :=
  (register_wasm_compile_error (fun _ => none) PluginRegistry.new
    ⟨"bad", (0, 1, 0), [], []⟩ [1, 2, 3] rfl).1

/-- C6: add_resource appends a new slot and returns strictly increasing
indices that stay valid across takes; taking a filled slot of the right
type leaves none in place (so a second take returns none); a wrong-type
take restores the slot and returns none; and no take shifts the index of
any other resource. -/
theorem dataMessage_resources_spec (m : DataMessage) (r1 r2 : Res) (ty i : Nat) :
    ((m.add_resource r1).2 = m.resources.length ∧
     (m.add_resource r1).1.resources = m.resources ++ [some r1]) ∧
    (m.add_resource r1).2 < ((m.add_resource r1).1.add_resource r2).2 ∧
    (m.take_downcast ty i).2.resources.length = m.resources.length ∧
    (∀ j, j ≠ i → (m.take_downcast ty i).2.resources[j]? = m.resources[j]?) ∧
    (m.resources[i]? = some (some r1) → r1.ty = ty →
      m.take_downcast ty i =
        (some r1, { m with resources := m.resources.set i none }) ∧
      ((m.take_downcast ty i).2.take_downcast ty i).1 = none) ∧
    (m.resources[i]? = some (some r1) → r1.ty ≠ ty →
      m.take_downcast ty i = (none, m)) := by
  refine ⟨⟨rfl, rfl⟩, ?_, ?_, ?_, ?_, ?_⟩
  · simp [DataMessage.add_resource]
  · unfold DataMessage.take_downcast
    rcases hslot : m.resources[i]? with _ | slot
    · rfl
    · rcases slot with _ | r
      · simp
      · by_cases hty : r.ty = ty <;> simp [hty]
  · intro j hj
    unfold DataMessage.take_downcast
    rcases hslot : m.resources[i]? with _ | slot
    · rfl
    · rcases slot with _ | r
      · simp [List.getElem?_set_ne (Ne.symm hj)]
      · by_cases hty : r.ty = ty <;>
          simp [hty, List.getElem?_set_ne (Ne.symm hj)]
  · intro hslot hty
    have h1 : m.take_downcast ty i =
        (some r1, { m with resources := m.resources.set i none }) := by
      unfold DataMessage.take_downcast
      rw [hslot]
      simp [hty]
    refine ⟨h1, ?_⟩
    rw [h1]
    have hi : i < m.resources.length := by
      have := List.getElem?_eq_some_iff.mp hslot
      exact this.1
    unfold DataMessage.take_downcast
    simp [List.getElem?_set_self, hi]
  · intro hslot hty
    unfold DataMessage.take_downcast
    rw [hslot]
    simp only [hty, if_false]
    rw [list_set_self _ _ _ hslot]

/-- Witness for C6 at a concrete message with two filled slots. -/
theorem dataMessage_resources_spec_witness :
    (⟨none, 0, [], [some ⟨0, 5⟩, some ⟨1, 6⟩]⟩ : DataMessage).take_downcast 0 0 =
      (some ⟨0, 5⟩,
        { (⟨none, 0, [], [some ⟨0, 5⟩, some ⟨1, 6⟩]⟩ : DataMessage) with
            resources := [some ⟨0, 5⟩, some ⟨1, 6⟩].set 0 none }) ∧
    (((⟨none, 0, [], [some ⟨0, 5⟩, some ⟨1, 6⟩]⟩ : DataMessage).take_downcast 0 0).2.take_downcast
        0 0).1 = none :=
  (dataMessage_resources_spec ⟨none, 0, [], [some ⟨0, 5⟩, some ⟨1, 6⟩]⟩ ⟨0, 5⟩ ⟨9, 9⟩ 0 0).2.2.2.2.1
    (by decide) (by decide)

/-- C8: the LEB128 encoders produce exactly the vectors named by the
specification, and every unsigned encoding is a non-empty byte string
whose non-final bytes carry the continuation bit (they lie in [128, 256))
while the final byte has it clear (it is below 128). -/
theorem leb128_encoders_spec :
    encode_leb128_u32 0 = [0x00] ∧
    encode_leb128_u32 127 = [0x7F] ∧
    encode_leb128_u32 128 = [0x80, 0x01] ∧
    encode_leb128_u32 624485 = [0xE5, 0x8E, 0x26] ∧
    encode_leb128_i32 (-1) = [0x7F] ∧
    encode_leb128_i32 (-128) = [0x80, 0x7F] ∧
    ∀ n : Nat, ∃ bs b, encode_leb128_u32 n = bs ++ [b] ∧
      (∀ x ∈ bs, 128 ≤ x ∧ x < 256) ∧ b < 128 := by
  refine ⟨?_, ?_, ?_, ?_, ?_, ?_, encode_leb128_u32_shape⟩
  · rw [encode_leb128_u32.eq_def]
    norm_num
  · rw [encode_leb128_u32.eq_def]
    norm_num
  · rw [encode_leb128_u32.eq_def]
    norm_num
    rw [encode_leb128_u32.eq_def]
    norm_num
  · rw [encode_leb128_u32.eq_def]
    norm_num
    rw [encode_leb128_u32.eq_def]
    norm_num
    rw [encode_leb128_u32.eq_def]
    norm_num
  · rw [encode_leb128_i32.eq_def]
    norm_num
    simp
  · rw [encode_leb128_i32.eq_def]
    norm_num
    rw [encode_leb128_i32.eq_def]
    norm_num
    simp

/-- Witness for C8 instantiating the universally quantified shape part at
a concrete input. -/
theorem leb128_encoders_spec_witness :
    ∃ bs b, encode_leb128_u32 300 = bs ++ [b] ∧
      (∀ x ∈ bs, 128 ≤ x ∧ x < 256) ∧ b < 128 :=
  leb128_encoders_spec.2.2.2.2.2.2 300

/-- C7: a stream read copies from buffer[read_ptr..] into the caller slice
and advances read_ptr by exactly the transferred count; at the end of the
buffer the read succeeds returning 0 bytes with the state unchanged; past
the end it errors with the state unchanged. -/
theorem dataMessage_read_spec (m : DataMessage) (bufLen : Nat) :
    (m.read_ptr ≤ m.buffer.length →
      (m.read bufLen).1 =
        .ok ((m.buffer.drop m.read_ptr).take (min bufLen (m.buffer.length - m.read_ptr)),
          min bufLen (m.buffer.length - m.read_ptr)) ∧
      (m.read bufLen).2 =
        { m with read_ptr := m.read_ptr + min bufLen (m.buffer.length - m.read_ptr) }) ∧
    (m.read_ptr = m.buffer.length →
      (m.read bufLen).1 = .ok ([], 0) ∧ (m.read bufLen).2 = m) ∧
    (m.buffer.length < m.read_ptr → m.read bufLen = (.error (), m)) := by
  refine ⟨?_, ?_, ?_⟩
  · intro h
    simp [DataMessage.read, h, List.length_drop]
  · intro h
    have hle : m.read_ptr ≤ m.buffer.length := le_of_eq h
    have h0 : min bufLen (m.buffer.length - m.read_ptr) = 0 := by omega
    constructor
    · simp [DataMessage.read, hle, List.length_drop, h0]
    · simp [DataMessage.read, hle, List.length_drop, h0]
  · intro h
    simp [DataMessage.read, Nat.not_le.mpr h, not_le_of_lt h]

/-- Witness for C7 at a concrete message mid-buffer, at the end of the
buffer, and past the end. -/
theorem dataMessage_read_spec_witness :
    ((⟨none, 1, [10, 20, 30], []⟩ : DataMessage).read 5).1 = .ok ([20, 30], 2) ∧
    ((⟨none, 3, [10, 20, 30], []⟩ : DataMessage).read 5).1 = .ok ([], 0) ∧
    (⟨none, 4, [10, 20, 30], []⟩ : DataMessage).read 5 =
      (.error (), ⟨none, 4, [10, 20, 30], []⟩) := by
  refine ⟨?_, ?_, ?_⟩
  · have h := (dataMessage_read_spec ⟨none, 1, [10, 20, 30], []⟩ 5).1 (by decide)
    exact h.1.trans (by rfl)
  · exact ((dataMessage_read_spec ⟨none, 3, [10, 20, 30], []⟩ 5).2.1 (by decide)).1
  · exact (dataMessage_read_spec ⟨none, 4, [10, 20, 30], []⟩ 5).2.2 (by decide)

/-- C9 counterexample: for an input of 2^31 bytes the input_size host
function returns a negative value (the usize length wraps when cast to
i32), so the claim that the result is non-negative and equals the length
for every input byte string is false as stated. -/
theorem input_size_wraps :
    input_size ⟨List.replicate (2 ^ 31) 0, []⟩ = -(2 ^ 31) ∧
    input_size ⟨List.replicate (2 ^ 31) 0, []⟩ < 0 := by
  have h : input_size ⟨List.replicate (2 ^ 31) 0, []⟩ = -(2 ^ 31) := by
    show toI32 (List.replicate (2 ^ 31) 0).length = -(2 ^ 31)
    rw [List.length_replicate]
    simp only [toI32]
    norm_num
  exact ⟨h, by rw [h]; omega⟩

/-- C9 as amended: for every per-pass state whose input is shorter than
2^31 bytes, input_size returns the input length as a non-negative i32. -/
theorem input_size_small (st : PluginHostState)
    (h : st.input_bytes.length < 2 ^ 31) :
    input_size st = st.input_bytes.length ∧ 0 ≤ input_size st := by
  constructor
  · simp only [input_size, toI32]
    split <;> omega
  · simp only [input_size, toI32]
    split <;> omega

/-- Witness for the amended C9 at a three-byte input. -/
theorem input_size_small_witness :
    input_size ⟨[7, 8, 9], []⟩ = 3 ∧ 0 ≤ input_size ⟨[7, 8, 9], []⟩ :=
  ⟨(input_size_small ⟨[7, 8, 9], []⟩ (by decide)).1.trans (by decide),
   (input_size_small ⟨[7, 8, 9], []⟩ (by decide)).2⟩

/-- C10: each successful write_output call replaces the host-side output
buffer entirely with the bytes copied from plugin memory: after two
successful calls in one pass the output is exactly the second slice
(independent of any earlier state), and the input bytes never change. -/
theorem write_output_replaces (st st1 st2 : PluginHostState)
    (mem1 mem2 : Bytes) (p1 l1 p2 l2 : Int)
    (h1 : write_output st mem1 p1 l1 = .ok st1)
    (h2 : write_output st1 mem2 p2 l2 = .ok st2) :
    st1.output_bytes = (mem1.drop (usizeOfI32 p1)).take (usizeOfI32 l1) ∧
    st2.output_bytes = (mem2.drop (usizeOfI32 p2)).take (usizeOfI32 l2) ∧
    st2.input_bytes = st.input_bytes := by
  simp only [write_output] at h1 h2
  split at h1
  · split at h2
    · cases h1
      cases h2
      simp
    · cases h2
  · cases h1

theorem registerCaps_cons (p : Plugin) (reg : PluginRegistry) (c : Capability)
    (cs : List Capability) :
    registerCaps p reg (c :: cs) =
      registerCaps p
        (match c with
         | .moduleTransform =>
             { reg with module_transform_plugins := reg.module_transform_plugins ++ [p] }
         | .hostFunctions ns =>
             { reg with host_function_plugins := mapEntryPush ns p reg.host_function_plugins }
         | .lifecycleHooks =>
             { reg with
                 lifecycle_plugins := reg.lifecycle_plugins ++ [p]
                 lifecycle_dispatcher := reg.lifecycle_dispatcher ++ [p] }
         | _ => reg) cs := rfl

theorem registerCaps_plugins (p : Plugin) (caps : List Capability)
    (reg : PluginRegistry) : (registerCaps p reg caps).plugins = reg.plugins := by
  induction caps generalizing reg with
  | nil => rfl
  | cons c cs ih =>
    rw [registerCaps_cons]
    cases c <;> simpa using ih _

theorem registerCaps_mtp (p q : Plugin) (caps : List Capability)
    (reg : PluginRegistry) :
    (q ∈ (registerCaps p reg caps).module_transform_plugins ↔
      q ∈ reg.module_transform_plugins ∨ (q = p ∧ .moduleTransform ∈ caps)) := by
  induction caps generalizing reg with
  | nil => simp [registerCaps]
  | cons c cs ih =>
    rw [registerCaps_cons]
    cases c <;> simp only [ih] <;> simp [List.mem_cons] <;> tauto

theorem registerCaps_dispatcher (p q : Plugin) (caps : List Capability)
    (reg : PluginRegistry) :
    (q ∈ (registerCaps p reg caps).lifecycle_dispatcher ↔
      q ∈ reg.lifecycle_dispatcher ∨ (q = p ∧ .lifecycleHooks ∈ caps)) := by
  induction caps generalizing reg with
  | nil => simp [registerCaps]
  | cons c cs ih =>
    rw [registerCaps_cons]
    cases c <;> simp only [ih] <;> simp [List.mem_cons] <;> tauto

theorem hostReach_push (ns : String) (p q : Plugin)
    (m : List (String × List Plugin)) :
    hostReach (mapEntryPush ns p m) q ↔ hostReach m q ∨ q = p := by
  constructor
  · rintro ⟨ns1, vs, hl, hm⟩
    by_cases h : ns1 = ns
    · subst h
      rw [mapLookup_mapEntryPush_self] at hl
      cases hl
      rcases List.mem_append.mp hm with hm | hm
      · rcases ho : mapLookup ns1 m with _ | vs0
        · rw [ho] at hm
          simp at hm
        · rw [ho] at hm
          exact Or.inl ⟨ns1, vs0, ho, hm⟩
      · right
        simpa using hm
    · rw [mapLookup_mapEntryPush_ne ns ns1 p m h] at hl
      exact Or.inl ⟨ns1, vs, hl, hm⟩
  · rintro (⟨ns1, vs, hl, hm⟩ | hqp)
    · by_cases h : ns1 = ns
      · subst h
        refine ⟨ns1, (mapLookup ns1 m).getD [] ++ [p],
          mapLookup_mapEntryPush_self ns1 p m, ?_⟩
        rw [hl]
        simp [hm]
      · exact ⟨ns1, vs, by rw [mapLookup_mapEntryPush_ne ns ns1 p m h]; exact hl, hm⟩
    · refine ⟨ns, (mapLookup ns m).getD [] ++ [p],
        mapLookup_mapEntryPush_self ns p m, ?_⟩
      simp [hqp]

theorem registerCaps_host (p q : Plugin) (caps : List Capability)
    (reg : PluginRegistry) :
    (hostReach (registerCaps p reg caps).host_function_plugins q ↔
      hostReach reg.host_function_plugins q ∨
        (q = p ∧ ∃ ns, .hostFunctions ns ∈ caps)) := by
  induction caps generalizing reg with
  | nil => simp [registerCaps]
  | cons c cs ih =>
    rw [registerCaps_cons]
    cases c <;> simp only [ih] <;> simp [List.mem_cons, hostReach_push] <;> tauto

theorem registerCaps_host_mono (p : Plugin) (caps : List Capability)
    (reg : PluginRegistry) (ns : String) (vs : List Plugin)
    (h : mapLookup ns reg.host_function_plugins = some vs) :
    ∃ vs2, mapLookup ns (registerCaps p reg caps).host_function_plugins = some vs2 ∧
      ∀ x ∈ vs, x ∈ vs2 := by
  induction caps generalizing reg vs with
  | nil => exact ⟨vs, h, fun x hx => hx⟩
  | cons c cs ih =>
    rw [registerCaps_cons]
    cases c with
    | moduleTransform => exact ih _ _ h
    | lifecycleHooks => exact ih _ _ h
    | networking => exact ih _ _ h
    | filesystem paths => exact ih _ _ h
    | processSpawn => exact ih _ _ h
    | hostFunctions ns1 =>
      by_cases hns : ns1 = ns
      · subst hns
        have h2 : mapLookup ns1 (mapEntryPush ns1 p reg.host_function_plugins) =
            some (vs ++ [p]) := by
          rw [mapLookup_mapEntryPush_self, h]
          rfl
        obtain ⟨vs2, hl2, hsub⟩ :=
          ih { reg with
                 host_function_plugins := mapEntryPush ns1 p reg.host_function_plugins }
            (vs ++ [p]) h2
        exact ⟨vs2, hl2, fun x hx => hsub x (List.mem_append_left _ hx)⟩
      · have h2 : mapLookup ns (mapEntryPush ns1 p reg.host_function_plugins) =
            some vs := by
          rw [mapLookup_mapEntryPush_ne ns1 ns p _ (Ne.symm hns)]
          exact h
        exact ih { reg with
                     host_function_plugins := mapEntryPush ns1 p reg.host_function_plugins }
          vs h2

theorem get_register (reg : PluginRegistry) (p : Plugin) (n : String) :
    (reg.register p).get n = if n = p.info.name then some p else reg.get n := by
  unfold PluginRegistry.register PluginRegistry.get
  simp only [registerCaps_plugins]
  by_cases h : n = p.info.name
  · subst h
    simp [mapLookup_mapInsert_self]
  · simp [h, mapLookup_mapInsert_ne _ _ _ _ h]

theorem reachable_register (reg : PluginRegistry) (p q : Plugin)
    (h : (reg.register p).reachableByCapability q) :
    q = p ∨ reg.reachableByCapability q := by
  have hm : (reg.register p).module_transform_plugins =
      (registerCaps p reg p.info.capabilities).module_transform_plugins := rfl
  have hh : (reg.register p).host_function_plugins =
      (registerCaps p reg p.info.capabilities).host_function_plugins := rfl
  have hd : (reg.register p).lifecycle_dispatcher =
      (registerCaps p reg p.info.capabilities).lifecycle_dispatcher := rfl
  rcases h with h | h | h
  · rw [hm, registerCaps_mtp] at h
    rcases h with h | ⟨rfl, _⟩
    · exact Or.inr (Or.inl h)
    · exact Or.inl rfl
  · have h2 : hostReach (reg.register p).host_function_plugins q := h
    rw [hh, registerCaps_host] at h2
    rcases h2 with h2 | ⟨rfl, _⟩
    · exact Or.inr (Or.inr (Or.inl h2))
    · exact Or.inl rfl
  · rw [hd, registerCaps_dispatcher] at h
    rcases h with h | ⟨rfl, _⟩
    · exact Or.inr (Or.inr (Or.inr h))
    · exact Or.inl rfl

theorem regInv_register (reg : PluginRegistry) (p : Plugin) (hinv : RegInv reg)
    (hfresh : reg.get p.info.name = none) : RegInv (reg.register p) := by
  intro q hq
  rcases reachable_register reg p q hq with rfl | hq2
  · rw [get_register]
    simp
  · have hold := hinv q hq2
    have hne : q.info.name ≠ p.info.name := by
      intro h
      rw [h, hfresh] at hold
      cases hold
    rw [get_register, if_neg hne]
    exact hold

theorem regInv_foldl (ps : List Plugin) (reg : PluginRegistry) (hinv : RegInv reg)
    (hfresh : ∀ x ∈ ps, reg.get x.info.name = none)
    (hnodup : (ps.map fun x => x.info.name).Nodup) :
    RegInv (ps.foldl PluginRegistry.register reg) := by
  induction ps generalizing reg with
  | nil => exact hinv
  | cons p rest ih =>
    rw [List.map_cons, List.nodup_cons] at hnodup
    rw [List.foldl_cons]
    refine ih (reg.register p)
      (regInv_register reg p hinv (hfresh p (List.mem_cons_self p rest))) ?_ hnodup.2
    intro x hx
    have hne : x.info.name ≠ p.info.name := by
      intro h
      exact hnodup.1 (h ▸ List.mem_map_of_mem (fun y => y.info.name) hx)
    rw [get_register, if_neg hne]
    exact hfresh x (List.mem_cons_of_mem p hx)

/-- C4 counterexample: reusing a registered plugin name breaks the claim.
With plugin A named x carrying the ModuleTransform capability registered
first and a distinct plugin B with the same name registered second, A is
still reachable through the transform index but get by its name now
returns B, so A is not reachable through get and the earlier name-map
entry for A has been removed. -/
theorem registry_reachability_counterexample :
    ((PluginRegistry.new.register
        ⟨⟨"x", (1, 0, 0), [.moduleTransform], []⟩, 0⟩).register
          ⟨⟨"x", (1, 0, 0), [], []⟩, 1⟩).reachableByCapability
      ⟨⟨"x", (1, 0, 0), [.moduleTransform], []⟩, 0⟩ ∧
    ¬ ((PluginRegistry.new.register
        ⟨⟨"x", (1, 0, 0), [.moduleTransform], []⟩, 0⟩).register
          ⟨⟨"x", (1, 0, 0), [], []⟩, 1⟩).get "x" =
        some ⟨⟨"x", (1, 0, 0), [.moduleTransform], []⟩, 0⟩ ∧
    (PluginRegistry.new.register
        ⟨⟨"x", (1, 0, 0), [.moduleTransform], []⟩, 0⟩).get "x" =
      some ⟨⟨"x", (1, 0, 0), [.moduleTransform], []⟩, 0⟩ := by
  refine ⟨Or.inl (by decide), by decide, by decide⟩

/-- C4 as amended: as long as no two successful register calls reuse a
plugin name, every plugin reachable through a capability index (transform
list, host-function namespace list, lifecycle dispatcher) is reachable
through get by its name, and registering a fresh-named plugin preserves
every existing name-map entry and capability-index entry. -/
theorem registry_invariant_fresh_names :
    (∀ ps : List Plugin, (ps.map fun x => x.info.name).Nodup →
      RegInv (buildRegistry ps)) ∧
    (∀ (reg : PluginRegistry) (p : Plugin) (n : String) (q : Plugin),
      reg.get p.info.name = none → reg.get n = some q →
        (reg.register p).get n = some q) ∧
    (∀ (reg : PluginRegistry) (p q : Plugin),
      q ∈ reg.module_transform_plugins →
        q ∈ (reg.register p).module_transform_plugins) ∧
    (∀ (reg : PluginRegistry) (p q : Plugin),
      q ∈ reg.lifecycle_dispatcher →
        q ∈ (reg.register p).lifecycle_dispatcher) ∧
    (∀ (reg : PluginRegistry) (p q : Plugin) (ns : String) (vs : List Plugin),
      mapLookup ns reg.host_function_plugins = some vs → q ∈ vs →
        ∃ vs2, mapLookup ns (reg.register p).host_function_plugins = some vs2 ∧
          q ∈ vs2) := by
  refine ⟨?_, ?_, ?_, ?_, ?_⟩
  · intro ps hnodup
    refine regInv_foldl ps PluginRegistry.new ?_ ?_ hnodup
    · intro q hq
      rcases hq with hq | ⟨ns, vs, hl, _⟩ | hq
      · cases hq
      · cases hl
      · cases hq
    · intro x _
      rfl
  · intro reg p n q hfresh hget
    have hne : n ≠ p.info.name := by
      intro h
      rw [h, hfresh] at hget
      cases hget
    rw [get_register, if_neg hne]
    exact hget
  · intro reg p q hq
    have hm : (reg.register p).module_transform_plugins =
        (registerCaps p reg p.info.capabilities).module_transform_plugins := rfl
    rw [hm, registerCaps_mtp]
    exact Or.inl hq
  · intro reg p q hq
    have hd : (reg.register p).lifecycle_dispatcher =
        (registerCaps p reg p.info.capabilities).lifecycle_dispatcher := rfl
    rw [hd, registerCaps_dispatcher]
    exact Or.inl hq
  · intro reg p q ns vs hl hq
    have hh : (reg.register p).host_function_plugins =
        (registerCaps p reg p.info.capabilities).host_function_plugins := rfl
    rw [hh]
    obtain ⟨vs2, hl2, hsub⟩ :=
      registerCaps_host_mono p p.info.capabilities reg ns vs hl
    exact ⟨vs2, hl2, hsub q hq⟩

/-- Witness for the amended C4: registering a second plugin under a fresh
name keeps the first plugin reachable through get. -/
theorem registry_invariant_fresh_names_witness :
    ((PluginRegistry.new.register
        ⟨⟨"a", (1, 0, 0), [.moduleTransform], []⟩, 0⟩).register
          ⟨⟨"b", (1, 0, 0), [], []⟩, 1⟩).get "a" =
      some ⟨⟨"a", (1, 0, 0), [.moduleTransform], []⟩, 0⟩ :=
  registry_invariant_fresh_names.2.1
    (PluginRegistry.new.register ⟨⟨"a", (1, 0, 0), [.moduleTransform], []⟩, 0⟩)
    ⟨⟨"b", (1, 0, 0), [], []⟩, 1⟩ "a"
    ⟨⟨"a", (1, 0, 0), [.moduleTransform], []⟩, 0⟩ (by decide) (by decide)

/-- Witness for C10: two writes in a row; only the second one survives. -/
theorem write_output_replaces_witness :
    (⟨[9], [2, 3]⟩ : PluginHostState).output_bytes = ([1, 2, 3].drop (usizeOfI32 1)).take (usizeOfI32 2) ∧
    (⟨[9], [5]⟩ : PluginHostState).output_bytes = ([5, 6].drop (usizeOfI32 0)).take (usizeOfI32 1) ∧
    (⟨[9], [5]⟩ : PluginHostState).input_bytes = (⟨[9], []⟩ : PluginHostState).input_bytes :=
  write_output_replaces ⟨[9], []⟩ ⟨[9], [2, 3]⟩ ⟨[9], [5]⟩ [1, 2, 3] [5, 6] 1 2 0 1
    (by rfl) (by rfl)

/-! ### Round-trip lemmas for the wasm binary codec -/

theorem readLebS_encode (n : Nat) (rest : Bytes) :
    ∃ h, readLebS (encode_leb128_u32 n ++ rest) = some (n, ⟨rest, h⟩) := by
  induction n using encode_leb128_u32.induct with
  | case1 n h =>
    have henc : encode_leb128_u32 n = [n] := by
      rw [encode_leb128_u32.eq_def]
      simp [h]
    rw [henc]
    refine ⟨by simp, ?_⟩
    simp [readLebS, h]
  | case2 n h ih =>
    have henc : encode_leb128_u32 n =
        (n % 128 + 128) :: encode_leb128_u32 (n / 128) := by
      rw [encode_leb128_u32.eq_def]
      simp [h]
    rw [henc]
    obtain ⟨h2, he2⟩ := ih
    have hb : ¬ (n % 128 + 128 < 128) := by omega
    refine ⟨by simp [List.length_cons]; omega, ?_⟩
    simp only [List.cons_append, readLebS, hb, if_false]
    split
    · rename_i hnone
      simp only [List.append_eq] at hnone
      rw [hnone] at he2
      cases he2
    · rename_i v r hr hsome
      simp only [List.append_eq] at hsome
      have hinj := Option.some.inj (hsome.symm.trans he2)
      have hv : v = n / 128 := congrArg Prod.fst hinj
      have hrr : r = rest := by
        have := congrArg Prod.snd hinj
        exact congrArg Subtype.val this
      subst hv
      subst hrr
      simp only [Option.some.injEq, Prod.mk.injEq, Subtype.mk.injEq]
      exact ⟨by omega, trivial⟩

theorem readU32_encode (n : Nat) (rest : Bytes) (hn : n < 2 ^ 32) :
    readU32 (encode_leb128_u32 n ++ rest) = some (n, rest) := by
  obtain ⟨h, he⟩ := readLebS_encode n rest
  simp only [readU32, he]
  rw [if_pos (by omega)]

theorem readU64_encode (n : Nat) (rest : Bytes) (hn : n < 2 ^ 64) :
    readU64 (encode_leb128_u32 n ++ rest) = some (n, rest) := by
  obtain ⟨h, he⟩ := readLebS_encode n rest
  simp only [readU64, he]
  rw [if_pos (by omega)]

theorem readN_append (xs rest : Bytes) :
    readN xs.length (xs ++ rest) = some (xs, rest) := by
  simp [readN, List.take_left, List.drop_left]

theorem readName_encode (nm rest : Bytes) (h : nm.length < 2 ^ 32) :
    readName (encodeName nm ++ rest) = some (nm, rest) := by
  rw [encodeName, List.append_assoc]
  simp [readName, readU32_encode _ _ h, readN_append]

theorem readValType_encode (v : WValType) (rest : Bytes) :
    readValType (v.toByte :: rest) = some (v, rest) := by
  cases v <;> rfl

theorem readList_encode {α β : Type} (f : Bytes → Option (β × Bytes))
    (enc : α → Bytes) (g : α → β) (items : List α) (rest : Bytes)
    (hf : ∀ x ∈ items, ∀ r, f (enc x ++ r) = some (g x, r)) :
    readList f items.length ((items.map enc).flatten ++ rest) =
      some (items.map g, rest) := by
  induction items generalizing rest with
  | nil => simp [readList]
  | cons x xs ih =>
    have hx := hf x (List.mem_cons_self x xs) ((xs.map enc).flatten ++ rest)
    simp only [List.map_cons, List.flatten_cons, List.length_cons,
      List.append_assoc, readList, hx]
    rw [ih rest fun y hy r => hf y (List.mem_cons_of_mem x hy) r]

theorem readVec_encode {α β : Type} (f : Bytes → Option (β × Bytes))
    (enc : α → Bytes) (g : α → β) (items : List α) (rest : Bytes)
    (hlen : items.length < 2 ^ 32)
    (hf : ∀ x ∈ items, ∀ r, f (enc x ++ r) = some (g x, r)) :
    readVec f (encodeVec enc items ++ rest) = some (items.map g, rest) := by
  rw [encodeVec, List.append_assoc]
  simp [readVec, readU32_encode _ _ hlen, readList_encode f enc g items rest hf]

theorem runVec_encode {α β : Type} (f : Bytes → Option (β × Bytes))
    (enc : α → Bytes) (g : α → β) (items : List α)
    (hlen : items.length < 2 ^ 32)
    (hf : ∀ x ∈ items, ∀ r, f (enc x ++ r) = some (g x, r)) :
    runVec f (encodeVec enc items) = some (items.map g) := by
  have h := readVec_encode f enc g items [] hlen hf
  rw [List.append_nil] at h
  simp [runVec, h]

theorem valTypeOfByte_toByte (v : WValType) : WValType.ofByte v.toByte = some v := by
  cases v <;> rfl

theorem refTypeOfByte_toByte (r : WRefType) : WRefType.ofByte r.toByte = some r := by
  cases r <;> rfl

theorem externalKindOfByte_toByte (k : WExternalKind) :
    WExternalKind.ofByte k.toByte = some k := by
  cases k <;> rfl

theorem readFuncType_encode (ft : WFuncType) (rest : Bytes)
    (hp : ft.params.length < 2 ^ 32) (hr : ft.results.length < 2 ^ 32) :
    readFuncType (encodeFuncType ft ++ rest) = some (ft, rest) := by
  obtain ⟨ps, rs⟩ := ft
  have hfp : ∀ v ∈ ps, ∀ r, readValType ([v.toByte] ++ r) = some (v, r) := by
    intro v _ r
    exact readValType_encode v r
  have hfr : ∀ v ∈ rs, ∀ r, readValType ([v.toByte] ++ r) = some (v, r) := by
    intro v _ r
    exact readValType_encode v r
  simp [encodeFuncType, readFuncType, List.append_assoc,
    readVec_encode readValType (fun v => [v.toByte]) id ps
      (encodeVec (fun v => [v.toByte]) rs ++ rest) hp hfp,
    readVec_encode readValType (fun v => [v.toByte]) id rs rest hr hfr]

theorem readTableType_encode (t : WTableType) (rest : Bytes)
    (hmin : t.minimum < 2 ^ 64)
    (hmax : match t.maximum with
            | some m => m < 2 ^ 64
            | none => True) :
    readTableType (encodeTableType t ++ rest) = some (t, rest) := by
  obtain ⟨et, mn, mx, t64⟩ := t
  cases mx with
  | none =>
    cases t64 <;>
      simp [encodeTableType, readTableType, refTypeOfByte_toByte,
        List.append_assoc, readU64_encode _ _ hmin]
  | some m =>
    cases t64 <;>
      simp [encodeTableType, readTableType, refTypeOfByte_toByte,
        List.append_assoc, readU64_encode _ _ hmin, readU64_encode _ _ hmax]

theorem readMemoryType_encode (m : WMemoryType) (rest : Bytes)
    (hmin : m.minimum < 2 ^ 64)
    (hmax : match m.maximum with
            | some mx => mx < 2 ^ 64
            | none => True)
    (hps : match m.pageSizeLog2 with
           | some ps => ps < 2 ^ 64
           | none => True) :
    readMemoryType (encodeMemoryType m ++ rest) = some (m, rest) := by
  obtain ⟨mn, mx, m64, sh, pslog⟩ := m
  cases mx with
  | none =>
    cases pslog with
    | none =>
      cases m64 <;> cases sh <;>
        simp [encodeMemoryType, readMemoryType, List.append_assoc,
          readU64_encode _ _ hmin]
    | some ps =>
      cases m64 <;> cases sh <;>
        simp [encodeMemoryType, readMemoryType, List.append_assoc,
          readU64_encode _ _ hmin, readU64_encode _ _ hps]
  | some mxv =>
    cases pslog with
    | none =>
      cases m64 <;> cases sh <;>
        simp [encodeMemoryType, readMemoryType, List.append_assoc,
          readU64_encode _ _ hmin, readU64_encode _ _ hmax]
    | some ps =>
      cases m64 <;> cases sh <;>
        simp [encodeMemoryType, readMemoryType, List.append_assoc,
          readU64_encode _ _ hmin, readU64_encode _ _ hmax,
          readU64_encode _ _ hps]

theorem readGlobalType_encode (g : WGlobalType) (rest : Bytes) :
    readGlobalType (encodeGlobalType g ++ rest) = some (g, rest) := by
  obtain ⟨vt, mt, sh⟩ := g
  cases mt <;> cases sh <;>
    simp [encodeGlobalType, readGlobalType, valTypeOfByte_toByte]

theorem readEntity_encode (e : WEntityType) (rest : Bytes) (h : e.sizeOk) :
    readEntity (encodeEntity e ++ rest) = some (e, rest) := by
  cases e with
  | function i =>
    simp [encodeEntity, readEntity, readU32_encode _ _ h]
  | table t =>
    simp only [WEntityType.sizeOk] at h
    simp [encodeEntity, readEntity, readTableType_encode t rest h.1 h.2]
  | memory m =>
    simp only [WEntityType.sizeOk] at h
    simp [encodeEntity, readEntity, readMemoryType_encode m rest h.1 h.2.1 h.2.2]
  | global g =>
    simp [encodeEntity, readEntity, readGlobalType_encode g rest]
  | tag i =>
    simp [encodeEntity, readEntity, readU32_encode _ _ h]

theorem readImport_encode (imp : WImport) (rest : Bytes)
    (hm : imp.importModule.length < 2 ^ 32) (hn : imp.name.length < 2 ^ 32)
    (he : imp.ty.sizeOk) :
    readImport (encodeImport imp ++ rest) = some (imp, rest) := by
  obtain ⟨md, nm, ty⟩ := imp
  simp [encodeImport, readImport, List.append_assoc,
    readName_encode md _ hm, readName_encode nm _ hn, readEntity_encode ty rest he]

theorem readExport_encode (e : ContextExport) (rest : Bytes) (h : exportSizeOk e) :
    readExport (encodeExport e ++ rest) = some (exportParsedForm e, rest) := by
  cases e with
  | newFunction nm i =>
    simp only [exportSizeOk] at h
    simp [encodeExport, readExport, List.append_assoc, exportParsedForm,
      readName_encode nm _ h.1, WExternalKind.ofByte, readU32_encode _ _ h.2]
  | parsed nm k i =>
    simp only [exportSizeOk] at h
    simp [encodeExport, readExport, List.append_assoc, exportParsedForm,
      readName_encode nm _ h.1, externalKindOfByte_toByte,
      readU32_encode _ _ h.2]

theorem readLocal_encode (l : Nat × WValType) (rest : Bytes) (h : l.1 < 2 ^ 32) :
    readLocal (encodeLocal l ++ rest) = some (l, rest) := by
  obtain ⟨c, v⟩ := l
  simp [encodeLocal, readLocal, List.append_assoc, readU32_encode _ _ h,
    readValType_encode]

theorem readCodeEntry_encode (ce : CodeEntry) (rest : Bytes)
    (hll : ce.1.length < 2 ^ 32) (hlc : ∀ l ∈ ce.1, l.1 < 2 ^ 32)
    (hpl : (encodeVec encodeLocal ce.1 ++ ce.2).length < 2 ^ 32) :
    readCodeEntry (encodeCodeEntry ce ++ rest) = some (ce, rest) := by
  obtain ⟨locals, body⟩ := ce
  have hf : ∀ l ∈ locals, ∀ r, readLocal (encodeLocal l ++ r) = some (l, r) := by
    intro l hl r
    exact readLocal_encode l r (hlc l hl)
  have hvec : readVec readLocal (encodeVec encodeLocal locals ++ body) =
      some (locals, body) := by
    have := readVec_encode readLocal encodeLocal id locals body hll hf
    simpa using this
  have hshape : encodeCodeEntry (locals, body) ++ rest =
      encode_leb128_u32 (encodeVec encodeLocal locals ++ body).length ++
        ((encodeVec encodeLocal locals ++ body) ++ rest) := by
    simp [encodeCodeEntry, List.append_assoc]
  rw [hshape]
  simp only [readCodeEntry, readU32_encode _ _ hpl, readN_append, hvec]

theorem sectionChunks_nil : sectionChunks [] = some [] := by
  rw [sectionChunks.eq_def]

theorem sectionChunks_encode (chunks : List (Nat × Bytes))
    (h : ∀ c ∈ chunks, c.2.length < 2 ^ 32) :
    sectionChunks ((chunks.map fun c => sectionBytes c.1 c.2).flatten) =
      some chunks := by
  induction chunks with
  | nil => exact sectionChunks_nil
  | cons c cs ih =>
    obtain ⟨id, p⟩ := c
    have hp : p.length < 2 ^ 32 := h (id, p) (List.mem_cons_self _ _)
    have hshape : (((id, p) :: cs).map fun c => sectionBytes c.1 c.2).flatten =
        id :: (encode_leb128_u32 p.length ++
          (p ++ (cs.map fun c => sectionBytes c.1 c.2).flatten)) := by
      simp [sectionBytes, List.append_assoc]
    rw [hshape, sectionChunks.eq_def]
    obtain ⟨hlen, he⟩ :=
      readLebS_encode p.length (p ++ (cs.map fun c => sectionBytes c.1 c.2).flatten)
    simp only []
    rw [he]
    have hcond : p.length < 2 ^ 32 ∧
        p.length ≤ (p ++ (cs.map fun c => sectionBytes c.1 c.2).flatten).length := by
      constructor
      · exact hp
      · simp
    simp only []
    rw [if_pos hcond]
    rw [List.take_left, List.drop_left]
    rw [ih fun x hx => h x (List.mem_cons_of_mem _ hx)]

theorem foldlM_applySection_raw (raws : List RawSection)
    (h : ∀ s ∈ raws, rawIdOk s.id) (ctx : ModuleContext) :
    (raws.map toChunk).foldlM applySection ctx =
      some { ctx with sections := ctx.sections ++ raws } := by
  induction raws generalizing ctx with
  | nil =>
    simp only [List.map_nil, List.foldlM_nil, List.append_nil]
    rfl
  | cons s rest ih =>
    obtain ⟨sid, sdata⟩ := s
    have hid : rawIdOk sid := h ⟨sid, sdata⟩ (List.mem_cons_self _ _)
    have hstep : applySection ctx (toChunk ⟨sid, sdata⟩) =
        some { ctx with sections := ctx.sections ++ [⟨sid, sdata⟩] } := by
      rcases hid with rfl | rfl | rfl | rfl | rfl | rfl | rfl | rfl <;> rfl
    rw [List.map_cons, List.foldlM_cons, hstep]
    show (rest.map toChunk).foldlM applySection
        { ctx with sections := ctx.sections ++ [⟨sid, sdata⟩] } = _
    rw [ih (fun x hx => h x (List.mem_cons_of_mem _ hx))]
    simp [List.append_assoc]

theorem applySection_type (ctx : ModuleContext) (ts : List WFuncType)
    (hlen : ts.length < 2 ^ 32)
    (hts : ∀ ft ∈ ts, ft.params.length < 2 ^ 32 ∧ ft.results.length < 2 ^ 32) :
    applySection ctx (1, encodeVec encodeFuncType ts) =
      some { ctx with types := ctx.types ++ ts } := by
  have h := runVec_encode readFuncType encodeFuncType id ts hlen
    (fun ft hft r => readFuncType_encode ft r (hts ft hft).1 (hts ft hft).2)
  rw [List.map_id] at h
  simp [applySection, h]

theorem applySection_import (ctx : ModuleContext) (imps : List WImport)
    (hlen : imps.length < 2 ^ 32)
    (him : ∀ imp ∈ imps,
      imp.importModule.length < 2 ^ 32 ∧ imp.name.length < 2 ^ 32 ∧ imp.ty.sizeOk) :
    applySection ctx (2, encodeVec encodeImport imps) =
      some { ctx with
               imports := ctx.imports ++ imps
               import_func_count := ctx.import_func_count + countFuncImports imps } := by
  have h := runVec_encode readImport encodeImport id imps hlen
    (fun imp hi r =>
      readImport_encode imp r (him imp hi).1 (him imp hi).2.1 (him imp hi).2.2)
  rw [List.map_id] at h
  simp [applySection, h]

theorem applySection_function (ctx : ModuleContext) (fs : List Nat)
    (hlen : fs.length < 2 ^ 32) (hfs : ∀ t ∈ fs, t < 2 ^ 32) :
    applySection ctx (3, encodeVec encode_leb128_u32 fs) =
      some { ctx with functions := ctx.functions ++ fs } := by
  have h := runVec_encode readU32 encode_leb128_u32 id fs hlen
    (fun t ht r => readU32_encode t r (hfs t ht))
  rw [List.map_id] at h
  simp [applySection, h]

theorem applySection_export (ctx : ModuleContext) (es : List ContextExport)
    (hlen : es.length < 2 ^ 32) (hes : ∀ e ∈ es, exportSizeOk e) :
    applySection ctx (7, encodeVec encodeExport es) =
      some { ctx with
               exports := ctx.exports ++ es.map exportParsedForm
               function_names :=
                 insertFuncNames ctx.function_names (es.map exportParsedForm) } := by
  have h := runVec_encode readExport encodeExport exportParsedForm es hlen
    (fun e he r => readExport_encode e r (hes e he))
  simp [applySection, h]

theorem applySection_code (ctx : ModuleContext) (cs : List CodeEntry)
    (hlen : cs.length < 2 ^ 32)
    (hcs : ∀ ce ∈ cs, ce.1.length < 2 ^ 32 ∧ (∀ l ∈ ce.1, l.1 < 2 ^ 32) ∧
      (encodeVec encodeLocal ce.1 ++ ce.2).length < 2 ^ 32) :
    applySection ctx (10, encodeVec encodeCodeEntry cs) =
      some { ctx with code_section := ctx.code_section ++ cs } := by
  have h := runVec_encode readCodeEntry encodeCodeEntry id cs hlen
    (fun ce hc r =>
      readCodeEntry_encode ce r (hcs ce hc).1 (hcs ce hc).2.1 (hcs ce hc).2.2)
  rw [List.map_id] at h
  simp [applySection, h]

theorem foldlM_append_some {σ α : Type} (f : σ → α → Option σ)
    (l1 l2 : List α) (s0 s1 : σ) (h1 : l1.foldlM f s0 = some s1) :
    (l1 ++ l2).foldlM f s0 = l2.foldlM f s1 := by
  induction l1 generalizing s0 with
  | nil =>
    cases h1
    rfl
  | cons a l ih =>
    rw [List.foldlM_cons] at h1
    rw [List.cons_append, List.foldlM_cons]
    rcases ha : f s0 a with _ | s2
    · rw [ha] at h1
      cases h1
    · rw [ha] at h1
      have h1b : l.foldlM f s2 = some s1 := h1
      show (l ++ l2).foldlM f s2 = l2.foldlM f s1
      exact ih s2 h1b

theorem foldlM_singleton {σ α : Type} (f : σ → α → Option σ) (a : α) (s0 s1 : σ)
    (h : f s0 a = some s1) : [a].foldlM f s0 = some s1 := by
  rw [List.foldlM_cons, h]
  rfl

theorem lookup_insertFuncNames_last (m : List (Bytes × Nat))
    (es : List ContextExport) (nm : Bytes) (idx : Nat) :
    mapLookup nm (insertFuncNames m (es ++ [.parsed nm .func idx])) = some idx := by
  rw [insertFuncNames, List.foldl_append]
  simp only [List.foldl_cons, List.foldl_nil]
  exact mapLookup_mapInsert_self nm idx _

theorem foldTypeSeg (c : ModuleContext) (st : ModuleContext)
    (hlen : c.types.length < 2 ^ 32)
    (hel : ∀ ft ∈ c.types, ft.params.length < 2 ^ 32 ∧ ft.results.length < 2 ^ 32) :
    (if c.types.isEmpty then []
     else [(1, encodeVec encodeFuncType c.types)]).foldlM applySection st =
      some { st with types := st.types ++ c.types } := by
  by_cases h : c.types.isEmpty
  · rw [if_pos h]
    rw [List.isEmpty_iff.mp h]
    simp
  · rw [if_neg h]
    exact foldlM_singleton _ _ _ _ (applySection_type st c.types hlen hel)

theorem foldImportSeg (c : ModuleContext) (st : ModuleContext)
    (hlen : c.imports.length < 2 ^ 32)
    (hel : ∀ imp ∈ c.imports,
      imp.importModule.length < 2 ^ 32 ∧ imp.name.length < 2 ^ 32 ∧ imp.ty.sizeOk) :
    (if c.imports.isEmpty then []
     else [(2, encodeVec encodeImport c.imports)]).foldlM applySection st =
      some { st with
               imports := st.imports ++ c.imports
               import_func_count := st.import_func_count + countFuncImports c.imports } := by
  by_cases h : c.imports.isEmpty
  · rw [if_pos h]
    rw [List.isEmpty_iff.mp h]
    simp [countFuncImports]
  · rw [if_neg h]
    exact foldlM_singleton _ _ _ _ (applySection_import st c.imports hlen hel)

theorem foldFunctionSeg (c : ModuleContext) (st : ModuleContext)
    (hlen : c.functions.length < 2 ^ 32) (hel : ∀ t ∈ c.functions, t < 2 ^ 32) :
    (if c.functions.isEmpty then []
     else [(3, encodeVec encode_leb128_u32 c.functions)]).foldlM applySection st =
      some { st with functions := st.functions ++ c.functions } := by
  by_cases h : c.functions.isEmpty
  · rw [if_pos h]
    rw [List.isEmpty_iff.mp h]
    simp
  · rw [if_neg h]
    exact foldlM_singleton _ _ _ _ (applySection_function st c.functions hlen hel)

theorem foldExportSeg (c : ModuleContext) (st : ModuleContext)
    (hlen : c.exports.length < 2 ^ 32) (hel : ∀ e ∈ c.exports, exportSizeOk e) :
    (if c.exports.isEmpty then []
     else [(7, encodeVec encodeExport c.exports)]).foldlM applySection st =
      some { st with
               exports := st.exports ++ c.exports.map exportParsedForm
               function_names :=
                 insertFuncNames st.function_names (c.exports.map exportParsedForm) } := by
  by_cases h : c.exports.isEmpty
  · rw [if_pos h]
    rw [List.isEmpty_iff.mp h]
    simp [insertFuncNames]
  · rw [if_neg h]
    exact foldlM_singleton _ _ _ _ (applySection_export st c.exports hlen hel)

theorem foldCodeSeg (c : ModuleContext) (st : ModuleContext)
    (hlen : c.code_section.length < 2 ^ 32)
    (hel : ∀ ce ∈ c.code_section, ce.1.length < 2 ^ 32 ∧ (∀ l ∈ ce.1, l.1 < 2 ^ 32) ∧
      (encodeVec encodeLocal ce.1 ++ ce.2).length < 2 ^ 32) :
    (if c.code_section.isEmpty then []
     else [(10, encodeVec encodeCodeEntry c.code_section)]).foldlM applySection st =
      some { st with code_section := st.code_section ++ c.code_section } := by
  by_cases h : c.code_section.isEmpty
  · rw [if_pos h]
    rw [List.isEmpty_iff.mp h]
    simp
  · rw [if_neg h]
    exact foldlM_singleton _ _ _ _ (applySection_code st c.code_section hlen hel)

theorem mem_ite_nil {α : Type} {p : Prop} [Decidable p] {x ch : α}
    (h : ch ∈ (if p then ([] : List α) else [x])) : ch = x := by
  split at h
  · simp at h
  · simpa using h

theorem parse_encode (c : ModuleContext) (h : SizesOk c) :
    ModuleContext.new c.encode = some (reParsed c) := by
  obtain ⟨⟨hTlen, hTel⟩, ⟨hIlen, hIel⟩, ⟨hFlen, hFel⟩, ⟨hElen, hEel⟩,
    ⟨hClen, hCel⟩, hRaw, hVT, hVI, hVF, hVE, hVC⟩ := h
  have hmemS1 : ∀ s ∈ c.sections.dropWhile isIn46,
      rawIdOk s.id ∧ s.data.length < 2 ^ 32 :=
    fun s hs => hRaw s ((List.dropWhile_sublist _).subset hs)
  have hmem46 : ∀ s ∈ c.sections.takeWhile isIn46,
      rawIdOk s.id ∧ s.data.length < 2 ^ 32 :=
    fun s hs => hRaw s ((List.takeWhile_sublist _).subset hs)
  have hmem8 : ∀ s ∈ (c.sections.dropWhile isIn46).takeWhile (isId 8),
      rawIdOk s.id ∧ s.data.length < 2 ^ 32 :=
    fun s hs => hmemS1 s ((List.takeWhile_sublist _).subset hs)
  have hmemS2 : ∀ s ∈ (c.sections.dropWhile isIn46).dropWhile (isId 8),
      rawIdOk s.id ∧ s.data.length < 2 ^ 32 :=
    fun s hs => hmemS1 s ((List.dropWhile_sublist _).subset hs)
  have hmem9 : ∀ s ∈ ((c.sections.dropWhile isIn46).dropWhile (isId 8)).takeWhile
      (isId 9), rawIdOk s.id ∧ s.data.length < 2 ^ 32 :=
    fun s hs => hmemS2 s ((List.takeWhile_sublist _).subset hs)
  have hmemS3 : ∀ s ∈ ((c.sections.dropWhile isIn46).dropWhile (isId 8)).dropWhile
      (isId 9), rawIdOk s.id ∧ s.data.length < 2 ^ 32 :=
    fun s hs => hmemS2 s ((List.dropWhile_sublist _).subset hs)
  have hmemDef : ∀ s ∈ (((c.sections.dropWhile isIn46).dropWhile (isId 8)).dropWhile
      (isId 9)).takeWhile isDeferrable, rawIdOk s.id ∧ s.data.length < 2 ^ 32 :=
    fun s hs => hmemS3 s ((List.takeWhile_sublist _).subset hs)
  have hmemS4 : ∀ s ∈ (((c.sections.dropWhile isIn46).dropWhile (isId 8)).dropWhile
      (isId 9)).dropWhile isDeferrable, rawIdOk s.id ∧ s.data.length < 2 ^ 32 :=
    fun s hs => hmemS3 s ((List.dropWhile_sublist _).subset hs)
  have hmem12 : ∀ s ∈ ((((c.sections.dropWhile isIn46).dropWhile (isId 8)).dropWhile
      (isId 9)).dropWhile isDeferrable).takeWhile (isId 12),
      rawIdOk s.id ∧ s.data.length < 2 ^ 32 :=
    fun s hs => hmemS4 s ((List.takeWhile_sublist _).subset hs)
  have hmemS5 : ∀ s ∈ ((((c.sections.dropWhile isIn46).dropWhile (isId 8)).dropWhile
      (isId 9)).dropWhile isDeferrable).dropWhile (isId 12),
      rawIdOk s.id ∧ s.data.length < 2 ^ 32 :=
    fun s hs => hmemS4 s ((List.dropWhile_sublist _).subset hs)
  have hmem11 : ∀ s ∈ (((((c.sections.dropWhile isIn46).dropWhile (isId 8)).dropWhile
      (isId 9)).dropWhile isDeferrable).dropWhile (isId 12)).takeWhile (isId 11),
      rawIdOk s.id ∧ s.data.length < 2 ^ 32 :=
    fun s hs => hmemS5 s ((List.takeWhile_sublist _).subset hs)
  have hmemS6 : ∀ s ∈ (((((c.sections.dropWhile isIn46).dropWhile (isId 8)).dropWhile
      (isId 9)).dropWhile isDeferrable).dropWhile (isId 12)).dropWhile (isId 11),
      rawIdOk s.id ∧ s.data.length < 2 ^ 32 :=
    fun s hs => hmemS5 s ((List.dropWhile_sublist _).subset hs)
  have hbound : ∀ ch ∈ ModuleContext.encodeChunks c, ch.2.length < 2 ^ 32 := by
    intro ch hch
    simp only [ModuleContext.encodeChunks, List.mem_append] at hch
    rcases hch with ((((((((((h1 | h2) | h3) | h4) | h5) | h6) | h7) | h8) | h9) |
        h10) | h11) | h12
    · rw [mem_ite_nil h1]
      exact hVT
    · rw [mem_ite_nil h2]
      exact hVI
    · rw [mem_ite_nil h3]
      exact hVF
    · obtain ⟨s, hs, rfl⟩ := List.mem_map.mp h4
      exact (hmem46 s hs).2
    · rw [mem_ite_nil h5]
      exact hVE
    · obtain ⟨s, hs, rfl⟩ := List.mem_map.mp h6
      exact (hmem8 s hs).2
    · obtain ⟨s, hs, rfl⟩ := List.mem_map.mp h7
      exact (hmem9 s hs).2
    · obtain ⟨s, hs, rfl⟩ := List.mem_map.mp h8
      exact (hmem12 s hs).2
    · rw [mem_ite_nil h9]
      exact hVC
    · obtain ⟨s, hs, rfl⟩ := List.mem_map.mp h10
      exact (hmem11 s hs).2
    · obtain ⟨s, hs, rfl⟩ := List.mem_map.mp h11
      exact (hmemDef s hs).2
    · obtain ⟨s, hs, rfl⟩ := List.mem_map.mp h12
      exact (hmemS6 s hs).2
  have htake : (ModuleContext.encode c).take 8 = wasmHeader := by
    rw [show ModuleContext.encode c = wasmHeader ++
      ((ModuleContext.encodeChunks c).map fun ch => sectionBytes ch.1 ch.2).flatten
      from rfl]
    rw [show (8 : Nat) = wasmHeader.length from rfl, List.take_left]
  have hdrop : (ModuleContext.encode c).drop 8 =
      ((ModuleContext.encodeChunks c).map fun ch => sectionBytes ch.1 ch.2).flatten := by
    rw [show ModuleContext.encode c = wasmHeader ++
      ((ModuleContext.encodeChunks c).map fun ch => sectionBytes ch.1 ch.2).flatten
      from rfl]
    rw [show (8 : Nat) = wasmHeader.length from rfl, List.drop_left]
  unfold ModuleContext.new
  rw [htake, if_pos rfl, hdrop, sectionChunks_encode _ hbound]
  show (ModuleContext.encodeChunks c).foldlM applySection emptyCtx =
    some (reParsed c)
  simp only [ModuleContext.encodeChunks, List.append_assoc]
  rw [foldlM_append_some _ _ _ _ _ (foldTypeSeg c emptyCtx hTlen hTel)]
  rw [foldlM_append_some _ _ _ _ _ (foldImportSeg c _ hIlen hIel)]
  rw [foldlM_append_some _ _ _ _ _ (foldFunctionSeg c _ hFlen hFel)]
  rw [foldlM_append_some _ _ _ _ _ (foldlM_applySection_raw _
    (fun s hs => (hmem46 s hs).1) _)]
  rw [foldlM_append_some _ _ _ _ _ (foldExportSeg c _ hElen hEel)]
  rw [foldlM_append_some _ _ _ _ _ (foldlM_applySection_raw _
    (fun s hs => (hmem8 s hs).1) _)]
  rw [foldlM_append_some _ _ _ _ _ (foldlM_applySection_raw _
    (fun s hs => (hmem9 s hs).1) _)]
  rw [foldlM_append_some _ _ _ _ _ (foldlM_applySection_raw _
    (fun s hs => (hmem12 s hs).1) _)]
  rw [foldlM_append_some _ _ _ _ _ (foldCodeSeg c _ hClen hCel)]
  rw [foldlM_append_some _ _ _ _ _ (foldlM_applySection_raw _
    (fun s hs => (hmem11 s hs).1) _)]
  rw [foldlM_append_some _ _ _ _ _ (foldlM_applySection_raw _
    (fun s hs => (hmemDef s hs).1) _)]
  rw [foldlM_applySection_raw _ (fun s hs => (hmemS6 s hs).1) _]
  simp [reParsed, rawEmitOrder, emptyCtx]

theorem encode_leb128_u32_small (n : Nat) (h : n < 128) :
    encode_leb128_u32 n = [n] := by
  rw [encode_leb128_u32.eq_def]
  simp [h]

/-- C5: for every wasm binary accepted by parsing, adding a function type,
then a function of that type (receiving index import_func_count plus the
defined-function count), then exporting it as f, the encoder succeeds (it
is a total function, mirroring the fact that the only fallible step of the
source encoder is the total translate_export_kind) and re-parsing the
emitted binary finds function_by_name f equal to the returned index.  The
SizesOk hypothesis pins the counts and sizes of the edited context inside
the integer widths the binary format carries; every context parsed from a
real (under 4 GiB) binary satisfies it. -/
theorem moduleContext_additive (bytes : Bytes) (ctx : ModuleContext)
    (params results : List WValType) (locals : List (Nat × WValType)) (body : Bytes)
    (hparse : ModuleContext.new bytes = some ctx)
    (hsizes : SizesOk (addedContext ctx params results locals body).1) :
    ∃ ctx2,
      ModuleContext.new
          (ModuleContext.encode (addedContext ctx params results locals body).1) =
        some ctx2 ∧
      ctx2.function_by_name fname =
        some (addedContext ctx params results locals body).2 ∧
      (addedContext ctx params results locals body).2 =
        ctx.import_func_count + ctx.functions.length := by
  refine ⟨reParsed (addedContext ctx params results locals body).1,
    parse_encode _ hsizes, ?_, rfl⟩
  show mapLookup fname (insertFuncNames []
    ((addedContext ctx params results locals body).1.exports.map exportParsedForm)) =
    some (addedContext ctx params results locals body).2
  have hex : (addedContext ctx params results locals body).1.exports =
      ctx.exports ++
        [.newFunction fname (ctx.import_func_count + ctx.functions.length)] := rfl
  rw [hex, List.map_append]
  simp only [List.map_cons, List.map_nil, exportParsedForm]
  exact lookup_insertFuncNames_last _ _ _ _

/-- Witness for C5: the empty module, one added void function with body
end, exported as f; the returned index is 0 and the re-parse finds it. -/
theorem moduleContext_additive_witness :
    ∃ ctx2,
      ModuleContext.new
          (ModuleContext.encode (addedContext emptyCtx [] [] [] [0x0b]).1) =
        some ctx2 ∧
      ctx2.function_by_name fname = some (addedContext emptyCtx [] [] [] [0x0b]).2 ∧
      (addedContext emptyCtx [] [] [] [0x0b]).2 =
        emptyCtx.import_func_count + emptyCtx.functions.length :=
  moduleContext_additive wasmHeader emptyCtx [] [] [] [0x0b]
    (by
      unfold ModuleContext.new
      rw [if_pos (show List.take 8 wasmHeader = wasmHeader from rfl)]
      rw [show List.drop 8 wasmHeader = [] from rfl, sectionChunks_nil]
      rfl)
    (by
      simp [SizesOk, addedContext, ModuleContext.add_function_type,
        ModuleContext.add_function, ModuleContext.add_function_export, emptyCtx,
        fname, encodeVec, encodeFuncType, encodeExport, encodeCodeEntry,
        encodeLocal, encodeName, encode_leb128_u32_small, exportSizeOk])

end Lunatic
